import Mathlib

/-!
A formal model of the directory-synchronization programs of this repository
(FTPSync.cpp, FTPBackup.cpp, FTPRestore.cpp).  Paths (C++ `std::string`)
are modelled as lists of characters, C++ exceptions with `Except String`,
and the external collaborators (the FTP server, the local filesystem) as
explicit environments.  Machine behaviour such as
`std::string::substr`'s out-of-range exception and
`std::unordered_map::operator[]`'s default insertion is modelled exactly.
-/

namespace FTPSync

/-- Paths (C++ `std::string` values) are modelled as lists of characters. -/
abbrev Path := List Char

/-- Command-line data relevant to path mapping (struct ParamArgData,
FTPSync.cpp:71-79; the connection fields are immaterial to the claims). -/
structure ParamArgData where
  remoteDirectory : Path
  localDirectory : Path
deriving DecidableEq

/-- Helper for `rfindChar`: index of the last occurrence of `c`,
offsetting indices by `i`. -/
def rfindCharAux (c : Char) : Path → Nat → Option Nat
  | [], _ => none
  | x :: xs, i =>
    match rfindCharAux c xs (i + 1) with
    | some j => some j
    | none => if x = c then some i else none

/-- `std::string::rfind(c)` (used at FTPSync.cpp:177): the index of the last
occurrence of `c`, or `none` for `npos`. -/
def rfindChar (s : Path) (c : Char) : Option Nat := rfindCharAux c s 0

/-- `std::string::substr(pos)`: the suffix of `s` from index `pos`.
C++ raises `std::out_of_range` when `pos` exceeds the length; that (and a
`substr(npos)` call after a failed `rfind`) is the `none` case. -/
def substrFrom (s : Path) (pos : Nat) : Option Path :=
  if pos ≤ s.length then some (s.drop pos) else none

/-- FTPSync.cpp:176-178: convert a local file path to a remote server path.
`return argData.remoteDirectory + localFilePath.substr(argData.localDirectory.rfind('/'))`.
An out-of-range `substr` (or an `rfind` miss) raises, modelled as
`Except.error`. -/
def localFileToRemote (argData : ParamArgData) (localFilePath : Path) : Except String Path :=
  match rfindChar argData.localDirectory '/' with
  | some pos =>
    match substrFrom localFilePath pos with
    | some suffix => Except.ok (argData.remoteDirectory ++ suffix)
    | none => Except.error "basic_string::substr: out of range"
  | none => Except.error "basic_string::substr: out of range"

/-- FTPSync.cpp:184-186: convert a remote server file path to a local path.
`return argData.localDirectory + remoteFilePath.substr(argData.remoteDirectory.size()+1)`. -/
def remoteFileToLocal (argData : ParamArgData) (remoteFilePath : Path) : Except String Path :=
  match substrFrom remoteFilePath (argData.remoteDirectory.length + 1) with
  | some suffix => Except.ok (argData.localDirectory ++ suffix)
  | none => Except.error "basic_string::substr: out of range"

/-- The total core of `localFileToRemote` on in-range inputs: the remote
directory followed by the input's suffix from the fixed offset
`|localDirectory| - 1` (the index of the trailing separator). -/
def toRemoteT (argData : ParamArgData) (p : Path) : Path :=
  argData.remoteDirectory ++ p.drop (argData.localDirectory.length - 1)

/-- The total core of `remoteFileToLocal` on in-range inputs. -/
def toLocalT (argData : ParamArgData) (r : Path) : Path :=
  argData.localDirectory ++ r.drop (argData.remoteDirectory.length + 1)

/-- Boolean test that `s` begins with `pre` (the spec's "begins with the
configured root"). -/
def startsList : Path → Path → Bool
  | [], _ => true
  | _ :: _, [] => false
  | a :: as, b :: bs => a = b && startsList as bs

/-- Kind of a remote tree entry (spec §3: `File` | `Directory`). -/
inductive EntryKind where
  | file : EntryKind
  | dir : EntryKind
deriving DecidableEq

/-- One entry of the remote tree: its mapped name and modification time.
`CFTP::DateTime` values are modelled as natural numbers, with `0` the
default-constructed (all-zero) `DateTime`; any timestamp obtained from
`std::localtime` of a real file time is strictly larger. -/
structure RemoteEntry where
  name : Path
  kind : EntryKind
  mtime : Nat
deriving DecidableEq

/-- The remote server's tree below the remote root directory. -/
structure RemoteState where
  entries : List RemoteEntry
deriving DecidableEq

/-- First entry with the given name. -/
def findEntry : List RemoteEntry → Path → Option RemoteEntry
  | [], _ => none
  | e :: es, p => if e.name = p then some e else findEntry es p

/-- Remove every entry with the given name. -/
def removeNamed : List RemoteEntry → Path → List RemoteEntry
  | [], _ => []
  | e :: es, p => if e.name = p then removeNamed es p else e :: removeNamed es p

/-- Replace the first entry with the given name, or append a new one. -/
def storeNamed : List RemoteEntry → Path → EntryKind → Nat → List RemoteEntry
  | [], p, k, t => [⟨p, k, t⟩]
  | e :: es, p, k, t => if e.name = p then ⟨p, k, t⟩ :: es else e :: storeNamed es p k t

/-- Modelled from the spec: the Remote Storage Port operation
`put(localPath, remotePath) -> status` (§4.4); `CFTP` is not part of this
repository.  Storing a path records the given timestamp for it. -/
def RemoteState.store (st : RemoteState) (p : Path) (k : EntryKind) (t : Nat) : RemoteState :=
  ⟨storeNamed st.entries p k t⟩

/-- Modelled from the spec: `delete(path) -> status` (§4.4); FTP status 250
is success.  Deletion succeeds exactly on an existing file entry (a
directory must be removed with `removeDirectory`, spec §4.3 Pass 2). -/
def RemoteState.deleteFile (st : RemoteState) (p : Path) : RemoteState × Nat :=
  match findEntry st.entries p with
  | some e => if e.kind = EntryKind.file then (⟨removeNamed st.entries p⟩, 250) else (st, 550)
  | none => (st, 550)

/-- Modelled from the spec: `removeDirectory(path) -> status` (§4.4),
succeeding exactly on an existing directory entry. -/
def RemoteState.removeDirectory (st : RemoteState) (p : Path) : RemoteState × Nat :=
  match findEntry st.entries p with
  | some e => if e.kind = EntryKind.dir then (⟨removeNamed st.entries p⟩, 250) else (st, 550)
  | none => (st, 550)

/-- Modelled from the spec: `getModifiedTime(path) -> (timestamp, status)`
(§4.4): `some` is FTP status 213; absence of a usable timestamp (a path the
server does not hold) is the distinguishable `none` outcome. -/
def RemoteState.getModifiedDateTime (st : RemoteState) (p : Path) : Option Nat :=
  (findEntry st.entries p).map RemoteEntry.mtime

/-- Modelled from the spec: `listRemoteRecursive` (FTPUtil, not in src/)
enumerates the full remote tree (§4.2). -/
def RemoteState.listNames (st : RemoteState) : List Path :=
  st.entries.map RemoteEntry.name

/-- The external environment of one Sync run: connection and
remote-directory probes, per-item transfer success, and the local
filesystem's answers (`CFile::isFile`, `CFile::lastWriteTime`).
`uploadTime p` is the timestamp the server records when local path `p` is
stored. -/
structure SyncEnv where
  connect230 : Bool
  existsBefore : Bool
  existsAfterMake : Bool
  serverCwd : Path
  transferOk : Path → Bool
  pushOk : Path → Bool
  isFileEnv : Path → Bool
  lastWriteTime : Path → Nat
  uploadTime : Path → Nat

/-- Entry kind recorded for a stored local path. -/
def entryKindOf (env : SyncEnv) (f : Path) : EntryKind :=
  if env.isFileEnv f then EntryKind.file else EntryKind.dir

/-- FTPSync.cpp:162: `if (argData.localDirectory.back() != '/')
argData.localDirectory.push_back('/');` (on the empty string C++ `back()`
is undefined; the model appends the separator). -/
def procCmdLineNormalize (localDirectory : Path) : Path :=
  if localDirectory.getLast? ≠ some '/' then localDirectory ++ ['/'] else localDirectory

/-- Result of the remote-directory setup block. -/
structure RemoteSetupResult where
  madeRemotePath : Bool
  finalRemoteDirectory : Path
deriving DecidableEq

/-- FTPSync.cpp:229-239: probe the remote root with `fileExists`; when
absent, create it with `makeRemotePath` (an FTPUtil helper, modelled from
the spec as creating the directory and its missing intermediate
directories) and re-probe, throwing when it still does not exist; then
`changeWorkingDirectory` / `getCurrentWoringDirectory` replace
`argData.remoteDirectory` with the server's reported working directory. -/
def remoteDirectorySetup (argData : ParamArgData) (env : SyncEnv) :
    Except String RemoteSetupResult :=
  if env.existsBefore then Except.ok ⟨false, env.serverCwd⟩
  else if env.existsAfterMake then Except.ok ⟨true, env.serverCwd⟩
  else Except.error ("Remote FTP server directory " ++ String.mk argData.remoteDirectory
    ++ " could not created.")

/-- FTPSync.cpp:261-265 (Pass 1 classification): collect every local path
whose mapped remote name is absent from the current remote name list. -/
def pass1Classify (argData : ParamArgData) (remoteFiles : List Path) :
    List Path → Except String (List Path)
  | [] => Except.ok []
  | file :: rest =>
    match localFileToRemote argData file with
    | Except.error e => Except.error e
    | Except.ok r =>
      match pass1Classify argData remoteFiles rest with
      | Except.error e => Except.error e
      | Except.ok tail =>
        Except.ok (if r ∈ remoteFiles then tail else file :: tail)

/-- Modelled from the spec: Antik's FTPUtil `putFiles` helper (called at
FTPSync.cpp:268 and FTPBackup.cpp:211; not in src/).  Per §4.3-§4.4 it
pushes each listed local path to its mapped remote name and returns the
remote names of the paths that transferred successfully; per-item failures
(`transferOk` false) are skipped and recorded only by omission. -/
def putFiles (argData : ParamArgData) (env : SyncEnv) :
    RemoteState → List Path → Except String (RemoteState × List Path)
  | st, [] => Except.ok (st, [])
  | st, f :: fs =>
    match localFileToRemote argData f with
    | Except.error e => Except.error e
    | Except.ok r =>
      if env.transferOk f then
        match putFiles argData env (st.store r (entryKindOf env f) (env.uploadTime f)) fs with
        | Except.error e => Except.error e
        | Except.ok (st', tr) => Except.ok (st', r :: tr)
      else
        putFiles argData env st fs

/-- FTPSync.cpp:277-287 (Pass 2): for every name in the working remote
list whose mapped local path is absent from the local list, attempt
`deleteFile`, falling back to `removeDirectory`; failures of both are
logged and skipped.  Returns the final server state and the successfully
removed names. -/
def pass2 (argData : ParamArgData) (localFiles : List Path) :
    RemoteState → List Path → Except String (RemoteState × List Path)
  | st, [] => Except.ok (st, [])
  | st, file :: rest =>
    match remoteFileToLocal argData file with
    | Except.error e => Except.error e
    | Except.ok l =>
      if l ∈ localFiles then pass2 argData localFiles st rest
      else
        let d1 := st.deleteFile file
        if d1.2 = 250 then
          match pass2 argData localFiles d1.1 rest with
          | Except.error e => Except.error e
          | Except.ok (st', del) => Except.ok (st', file :: del)
        else
          let d2 := d1.1.removeDirectory file
          if d2.2 = 250 then
            match pass2 argData localFiles d2.1 rest with
            | Except.error e => Except.error e
            | Except.ok (st', del) => Except.ok (st', file :: del)
          else
            pass2 argData localFiles d2.1 rest

/-- FTPSync.cpp:297-304: build the modification-time oracle
(`remoteFileModifiedTimes`): an entry is added only when
`getModifiedDateTime` returns status 213. -/
def buildOracle (st : RemoteState) : List Path → List (Path × Nat)
  | [] => []
  | file :: rest =>
    match st.getModifiedDateTime file with
    | some t => (file, t) :: buildOracle st rest
    | none => buildOracle st rest

/-- First value stored for a key in the oracle map. -/
def oracleFind : List (Path × Nat) → Path → Option Nat
  | [], _ => none
  | e :: es, k => if e.1 = k then some e.2 else oracleFind es k

/-- `std::unordered_map::operator[]` as used at FTPSync.cpp:311: the stored
value for the key, default-inserting a default-constructed
`CFTP::DateTime` (modelled as `0`) when the key is absent. -/
def mapIndex (m : List (Path × Nat)) (k : Path) : List (Path × Nat) × Nat :=
  match oracleFind m k with
  | some v => (m, v)
  | none => (m ++ [(k, 0)], 0)

/-- FTPSync.cpp:308-321 (Pass 3): for every local path that is a file,
compare the oracle's value for its mapped remote name (via `operator[]`)
with the local modification time and push when strictly older.  The
source's check of `putFile`'s status against 226 only selects a log line;
the state effect of the push is the store when it succeeds (`pushOk`).
Returns the final server state, the final oracle map, and the local paths
whose push was attempted. -/
def pass3 (argData : ParamArgData) (env : SyncEnv) :
    RemoteState → List (Path × Nat) → List Path →
      Except String (RemoteState × List (Path × Nat) × List Path)
  | st, m, [] => Except.ok (st, m, [])
  | st, m, file :: rest =>
    if env.isFileEnv file then
      match localFileToRemote argData file with
      | Except.error e => Except.error e
      | Except.ok r =>
        let lk := mapIndex m r
        if lk.2 < env.lastWriteTime file then
          let st₁ := if env.pushOk file
            then RemoteState.store st r EntryKind.file (env.uploadTime file) else st
          match pass3 argData env st₁ lk.1 rest with
          | Except.error e => Except.error e
          | Except.ok (st', m', upd) => Except.ok (st', m', file :: upd)
        else
          pass3 argData env st lk.1 rest
    else
      pass3 argData env st m rest

/-- Everything a finished Sync run exposes: the mapper roots actually used
by the passes, whether the remote root had to be created, Pass 1's
classification and successful transfers, the working remote name list
observed by Passes 2 and 3, Pass 2's removals, the oracle as built
(before `operator[]` lookups) and as left after Pass 3, Pass 3's attempted
pushes, and the final server state. -/
structure SyncOutcome where
  mapper : ParamArgData
  madeRemotePath : Bool
  newFiles : List Path
  transferred : List Path
  workingRemote : List Path
  deleted : List Path
  preOracle : List (Path × Nat)
  oracle : List (Path × Nat)
  updated : List Path
  finalState : RemoteState
deriving DecidableEq

/-- FTPSync.cpp `main` (lines 192-339): normalize the local root, connect,
set up the remote root, list both trees, and run the three passes in
order, each observing the previous pass's effects.  A thrown exception
(`Except.error`) aborts the remaining work. -/
def syncMain (argData₀ : ParamArgData) (localFiles : List Path) (env : SyncEnv)
    (st₀ : RemoteState) : Except String SyncOutcome :=
  let argData₁ : ParamArgData :=
    { argData₀ with localDirectory := procCmdLineNormalize argData₀.localDirectory }
  if env.connect230 then
    match remoteDirectorySetup argData₁ env with
    | Except.error e => Except.error e
    | Except.ok setup =>
      let argData : ParamArgData := { argData₁ with remoteDirectory := setup.finalRemoteDirectory }
      let remoteFiles₀ := st₀.listNames
      match pass1Classify argData remoteFiles₀ localFiles with
      | Except.error e => Except.error e
      | Except.ok newFiles =>
        match (if newFiles.isEmpty then Except.ok (st₀, ([] : List Path))
               else putFiles argData env st₀ newFiles) with
        | Except.error e => Except.error e
        | Except.ok (st₁, transferred) =>
          let remoteFiles₁ := remoteFiles₀ ++ transferred
          match pass2 argData localFiles st₁ remoteFiles₁ with
          | Except.error e => Except.error e
          | Except.ok (st₂, deleted) =>
            let oracle₀ := buildOracle st₂ remoteFiles₁
            match pass3 argData env st₂ oracle₀ localFiles with
            | Except.error e => Except.error e
            | Except.ok (st₃, oracle₁, updated) =>
              Except.ok ⟨argData, setup.madeRemotePath, newFiles, transferred, remoteFiles₁,
                deleted, oracle₀, oracle₁, updated, st₃⟩
  else Except.error "Unable to connect status returned"

/-- The cumulative effect on the server of a sequence of stores: the
common shape of Pass 1's `putFiles` (select by `transferOk`) and of
Pass 3's pushes (select by `pushOk`, kind always file). -/
def storeFold (argData : ParamArgData) (sel : Path → Bool) (kindOf : Path → EntryKind)
    (tOf : Path → Nat) : RemoteState → List Path → RemoteState
  | st, [] => st
  | st, f :: fs =>
    storeFold argData sel kindOf tOf
      (if sel f then st.store (toRemoteT argData f) (kindOf f) (tOf f) else st) fs

/-- The value `operator[]` yields for a key: the stored value, or the
default-constructed timestamp `0` when absent. -/
def oracleFindD (m : List (Path × Nat)) (k : Path) : Nat := (oracleFind m k).getD 0

/-- Environment of one Backup or Restore run: connection success, the
listing of the source tree (`none` when the listing throws), and the
paths `putFiles`/`getFiles` reports as successfully transferred. -/
structure DriverEnv where
  connect230 : Bool
  listing : Option (List Path)
  transferred : List Path

/-- What a Backup/Restore run exposes: the process exit code, whether the
run was reported as a success, and the transferred-file list that was
reported. -/
structure DriverOutcome where
  exitCode : Nat
  reportedSuccess : Bool
  filesTransferred : List Path
deriving DecidableEq

/-- FTPBackup.cpp `main` (lines 168-238): connect, list the local tree,
push it with `putFiles`, report success iff the returned list is
non-empty ("Backup failed." otherwise), and `exit(EXIT_SUCCESS)`; any
exception reaches `exitWithError`, which exits with `EXIT_FAILURE`. -/
def backupMain (env : DriverEnv) : DriverOutcome :=
  if env.connect230 then
    match env.listing with
    | none => ⟨1, false, []⟩
    | some locaFileList =>
      let filesBackedUp := if locaFileList.isEmpty then [] else env.transferred
      ⟨0, !filesBackedUp.isEmpty, filesBackedUp⟩
  else ⟨1, false, []⟩

/-- FTPRestore.cpp `main` (lines 172-243): connect, list the remote tree,
pull it with `getFiles`, report success iff the returned list is
non-empty ("Restore failed." otherwise), and `exit(EXIT_SUCCESS)`; any
exception reaches `exitWithError`, which exits with `EXIT_FAILURE`. -/
def restoreMain (env : DriverEnv) : DriverOutcome :=
  if env.connect230 then
    match env.listing with
    | none => ⟨1, false, []⟩
    | some remoteFileList =>
      let restoredFiles := if remoteFileList.isEmpty then [] else env.transferred
      ⟨0, !restoredFiles.isEmpty, restoredFiles⟩
  else ⟨1, false, []⟩

end FTPSync

namespace FTPSync

theorem startsList_iff (pre s : Path) : startsList pre s = true ↔ ∃ t, s = pre ++ t := by
  induction pre generalizing s with
  | nil => simp [startsList]
  | cons a as ih =>
    cases s with
    | nil =>
      simp only [startsList, List.cons_append]
      constructor
      · intro h; cases h
      · rintro ⟨t, ht⟩; cases ht
    | cons b bs =>
      simp only [startsList, Bool.and_eq_true, decide_eq_true_eq, ih, List.cons_append]
      constructor
      · rintro ⟨rfl, t, rfl⟩; exact ⟨t, rfl⟩
      · rintro ⟨t, ht⟩
        injection ht with h1 h2
        exact ⟨h1.symm, t, h2⟩

theorem rfindCharAux_concat (b : Path) (i : Nat) :
    rfindCharAux '/' (b ++ ['/']) i = some (i + b.length) := by
  induction b generalizing i with
  | nil => simp [rfindCharAux]
  | cons x xs ih =>
    have hstep : rfindCharAux '/' ((x :: xs) ++ ['/']) i
        = match rfindCharAux '/' (xs ++ ['/']) (i + 1) with
          | some j => some j
          | none => if x = '/' then some i else none := rfl
    rw [hstep, ih (i + 1)]
    show some (i + 1 + xs.length) = some (i + (x :: xs).length)
    simp only [List.length_cons]
    congr 1
    omega

theorem rfindChar_concat (b : Path) : rfindChar (b ++ ['/']) '/' = some b.length := by
  simp [rfindChar, rfindCharAux_concat]

theorem drop_append_plus (a b : Path) (n : Nat) : (a ++ b).drop (a.length + n) = b.drop n := by
  induction a with
  | nil => simp
  | cons x xs ih =>
    simp only [List.cons_append, List.length_cons]
    rw [show xs.length + 1 + n = (xs.length + n) + 1 by omega, List.drop_succ_cons]
    exact ih

theorem drop_append_self (a b : Path) : (a ++ b).drop a.length = b := by
  have h := drop_append_plus a b 0
  simp only [Nat.add_zero, List.drop_zero] at h
  exact h

/-- On any input at least as long as the offset, `localFileToRemote` returns
the remote directory plus the suffix at the fixed offset, with no check that
the input begins with the local root. -/
theorem localFileToRemote_ok (argData : ParamArgData) (b : Path)
    (hnorm : argData.localDirectory = b ++ ['/']) (p : Path) (hlen : b.length ≤ p.length) :
    localFileToRemote argData p = Except.ok (toRemoteT argData p) := by
  unfold localFileToRemote toRemoteT
  rw [hnorm, rfindChar_concat]
  simp only [substrFrom, if_pos hlen, List.length_append, List.length_cons,
    List.length_nil]
  rfl

theorem localFileToRemote_err (argData : ParamArgData) (b : Path)
    (hnorm : argData.localDirectory = b ++ ['/']) (p : Path) (hlen : p.length < b.length) :
    localFileToRemote argData p = Except.error "basic_string::substr: out of range" := by
  unfold localFileToRemote
  rw [hnorm, rfindChar_concat]
  simp only [substrFrom, if_neg (by omega : ¬ b.length ≤ p.length)]

theorem remoteFileToLocal_ok (argData : ParamArgData) (r : Path)
    (hlen : argData.remoteDirectory.length + 1 ≤ r.length) :
    remoteFileToLocal argData r = Except.ok (toLocalT argData r) := by
  unfold remoteFileToLocal toLocalT
  simp [substrFrom, if_pos hlen]

theorem remoteFileToLocal_err (argData : ParamArgData) (r : Path)
    (hlen : r.length < argData.remoteDirectory.length + 1) :
    remoteFileToLocal argData r = Except.error "basic_string::substr: out of range" := by
  unfold remoteFileToLocal
  simp [substrFrom, if_neg (by omega : ¬ argData.remoteDirectory.length + 1 ≤ r.length)]

/-- For a path under the (separator-terminated) local root, `toRemoteT`
produces the remote root followed by a separator and the relative suffix. -/
theorem toRemoteT_under (argData : ParamArgData) (b rest : Path)
    (hnorm : argData.localDirectory = b ++ ['/']) :
    toRemoteT argData (argData.localDirectory ++ rest)
      = argData.remoteDirectory ++ '/' :: rest := by
  unfold toRemoteT
  rw [hnorm]
  have h1 : (b ++ ['/']) ++ rest = b ++ ('/' :: rest) := by simp
  have h2 : (b ++ ['/']).length - 1 = b.length := by simp
  rw [h1, h2, drop_append_self]

theorem toLocalT_shape (argData : ParamArgData) (rest : Path) :
    toLocalT argData (argData.remoteDirectory ++ '/' :: rest)
      = argData.localDirectory ++ rest := by
  unfold toLocalT
  have : ('/' :: rest).drop 1 = rest := rfl
  rw [show argData.remoteDirectory.length + 1 = argData.remoteDirectory.length + 1 from rfl,
    drop_append_plus, this]

/-- Round trip on paths under the local root. -/
theorem toLocalT_toRemoteT (argData : ParamArgData) (b rest : Path)
    (hnorm : argData.localDirectory = b ++ ['/']) :
    toLocalT argData (toRemoteT argData (argData.localDirectory ++ rest))
      = argData.localDirectory ++ rest := by
  rw [toRemoteT_under argData b rest hnorm, toLocalT_shape]

/-- `toRemoteT` is injective on paths under the local root. -/
theorem toRemoteT_inj (argData : ParamArgData) (b : Path)
    (hnorm : argData.localDirectory = b ++ ['/']) (r₁ r₂ : Path)
    (h : toRemoteT argData (argData.localDirectory ++ r₁)
       = toRemoteT argData (argData.localDirectory ++ r₂)) :
    argData.localDirectory ++ r₁ = argData.localDirectory ++ r₂ := by
  rw [toRemoteT_under argData b r₁ hnorm, toRemoteT_under argData b r₂ hnorm] at h
  have h2 : ('/' :: r₁ : Path) = '/' :: r₂ := List.append_cancel_left h
  injection h2 with _ h3
  rw [h3]

end FTPSync

namespace FTPSync

theorem exists_concat_slash : ∀ s : Path, s.getLast? = some '/' → ∃ b, s = b ++ ['/']
  | [], h => by simp at h
  | [x], h => by
    simp only [List.getLast?_singleton, Option.some.injEq] at h
    exact ⟨[], by simp [h]⟩
  | x :: y :: t, h => by
    obtain ⟨b, hb⟩ := exists_concat_slash (y :: t) (by simpa [List.getLast?_cons_cons] using h)
    exact ⟨x :: b, by simp [hb]⟩

theorem procCmdLineNormalize_concat (s : Path) : ∃ b, procCmdLineNormalize s = b ++ ['/'] := by
  unfold procCmdLineNormalize
  by_cases h : s.getLast? = some '/'
  · simp only [h, ne_eq, not_true_eq_false, if_false]
    exact exists_concat_slash s h
  · simp only [ne_eq, h, not_false_eq_true, if_true]
    exact ⟨s, rfl⟩

theorem toRemoteT_eq_drop (argData : ParamArgData) (b : Path)
    (hnorm : argData.localDirectory = b ++ ['/']) (p : Path) :
    toRemoteT argData p = argData.remoteDirectory ++ p.drop b.length := by
  simp [toRemoteT, hnorm]

theorem localFileToRemote_ok_inv (argData : ParamArgData) (b : Path)
    (hnorm : argData.localDirectory = b ++ ['/']) (p r : Path)
    (h : localFileToRemote argData p = Except.ok r) :
    r = toRemoteT argData p ∧ b.length ≤ p.length := by
  by_cases hl : b.length ≤ p.length
  · rw [localFileToRemote_ok argData b hnorm p hl] at h
    injection h with h
    exact ⟨h.symm, hl⟩
  · rw [localFileToRemote_err argData b hnorm p (by omega)] at h
    cases h

theorem remoteFileToLocal_ok_inv (argData : ParamArgData) (p l : Path)
    (h : remoteFileToLocal argData p = Except.ok l) :
    l = toLocalT argData p ∧ argData.remoteDirectory.length + 1 ≤ p.length := by
  by_cases hl : argData.remoteDirectory.length + 1 ≤ p.length
  · rw [remoteFileToLocal_ok argData p hl] at h
    injection h with h
    exact ⟨h.symm, hl⟩
  · rw [remoteFileToLocal_err argData p (by omega)] at h
    cases h

/-- C1: for every local path `p` that begins with the local root (with the
local root normalized to end with '/'), mapping it to the remote namespace
and back is the identity: `remoteFileToLocal (localFileToRemote p) = p`. -/
theorem c1_mapping_roundtrip (argData : ParamArgData) (p : Path)
    (hnorm : argData.localDirectory.getLast? = some '/')
    (hpre : startsList argData.localDirectory p = true) :
    (localFileToRemote argData p).bind (remoteFileToLocal argData) = Except.ok p := by
  obtain ⟨b, hb⟩ := exists_concat_slash _ hnorm
  obtain ⟨rest, hrest⟩ := (startsList_iff _ _).1 hpre
  subst hrest
  have hlen : b.length ≤ (argData.localDirectory ++ rest).length := by
    rw [hb]
    simp only [List.length_append, List.length_cons, List.length_nil]
    omega
  rw [localFileToRemote_ok argData b hb _ hlen]
  show remoteFileToLocal argData (toRemoteT argData (argData.localDirectory ++ rest))
    = Except.ok (argData.localDirectory ++ rest)
  rw [toRemoteT_under argData b rest hb]
  rw [remoteFileToLocal_ok argData _
    (by simp only [List.length_append, List.length_cons]; omega)]
  rw [toLocalT_shape]

theorem c1_mapping_roundtrip_witness :
    (localFileToRemote ⟨"/srv".data, "/home/u/".data⟩ "/home/u/docs/f.txt".data).bind
        (remoteFileToLocal ⟨"/srv".data, "/home/u/".data⟩)
      = Except.ok "/home/u/docs/f.txt".data :=
  c1_mapping_roundtrip ⟨"/srv".data, "/home/u/".data⟩ "/home/u/docs/f.txt".data
    (by decide) (by decide)

/-- C7 fails as stated: here is a path that does not begin with the local
root, on which `localFileToRemote` raises nothing and returns a mapped
path (the remote root plus whatever characters sit beyond the fixed
offset). -/
theorem c7_counterexample :
    localFileToRemote ⟨"/r".data, "/a/".data⟩ "/xyz".data = Except.ok "/ryz".data ∧
    startsList "/a/".data "/xyz".data = false :=
  ⟨rfl, rfl⟩

/-- C7 amended: the mapping functions perform no root validation at all.
On any input at least as long as the root-derived offset they return
remote-root-plus-suffix-at-offset (whether or not the input begins with
the configured root); they fail only on inputs shorter than the offset,
and then with `std::out_of_range` from `substr`, not with a dedicated
path-mapping error. -/
theorem c7_mapping_no_validation (argData : ParamArgData) (b : Path)
    (hnorm : argData.localDirectory = b ++ ['/']) (p : Path) :
    (b.length ≤ p.length →
      localFileToRemote argData p
        = Except.ok (argData.remoteDirectory ++ p.drop b.length)) ∧
    (p.length < b.length →
      localFileToRemote argData p = Except.error "basic_string::substr: out of range") ∧
    (argData.remoteDirectory.length + 1 ≤ p.length →
      remoteFileToLocal argData p
        = Except.ok (argData.localDirectory ++ p.drop (argData.remoteDirectory.length + 1))) ∧
    (p.length < argData.remoteDirectory.length + 1 →
      remoteFileToLocal argData p = Except.error "basic_string::substr: out of range") := by
  refine ⟨fun hl => ?_, fun hl => localFileToRemote_err argData b hnorm p (by omega),
    fun hl => remoteFileToLocal_ok argData p hl, fun hl => remoteFileToLocal_err argData p hl⟩
  rw [localFileToRemote_ok argData b hnorm p hl, toRemoteT_eq_drop argData b hnorm]

theorem c7_mapping_no_validation_witness :
    ("/a".data.length ≤ "/xyz".data.length →
      localFileToRemote ⟨"/r".data, "/a/".data⟩ "/xyz".data
        = Except.ok ("/r".data ++ "/xyz".data.drop "/a".data.length)) ∧
    ("/xyz".data.length < "/a".data.length →
      localFileToRemote ⟨"/r".data, "/a/".data⟩ "/xyz".data
        = Except.error "basic_string::substr: out of range") ∧
    ("/r".data.length + 1 ≤ "/xyz".data.length →
      remoteFileToLocal ⟨"/r".data, "/a/".data⟩ "/xyz".data
        = Except.ok ("/a/".data ++ "/xyz".data.drop ("/r".data.length + 1))) ∧
    ("/xyz".data.length < "/r".data.length + 1 →
      remoteFileToLocal ⟨"/r".data, "/a/".data⟩ "/xyz".data
        = Except.error "basic_string::substr: out of range") :=
  c7_mapping_no_validation ⟨"/r".data, "/a/".data⟩ "/a".data rfl "/xyz".data

end FTPSync

namespace FTPSync

/-- C8: the Backup and Restore drivers report success exactly when the
transferred-file list is non-empty; the exit code is zero exactly when no
fatal connectivity or listing error occurred; and the exit code never
depends on which individual transfers succeeded. -/
theorem c8_driver_reporting (env : DriverEnv) :
    ((backupMain env).reportedSuccess = true ↔ (backupMain env).filesTransferred ≠ []) ∧
    ((backupMain env).exitCode = 0 ↔ env.connect230 = true ∧ env.listing ≠ none) ∧
    (∀ tr, (backupMain { env with transferred := tr }).exitCode = (backupMain env).exitCode) ∧
    ((restoreMain env).reportedSuccess = true ↔ (restoreMain env).filesTransferred ≠ []) ∧
    ((restoreMain env).exitCode = 0 ↔ env.connect230 = true ∧ env.listing ≠ none) ∧
    (∀ tr, (restoreMain { env with transferred := tr }).exitCode = (restoreMain env).exitCode) := by
  obtain ⟨c, l, t⟩ := env
  cases c <;> cases l <;>
    simp [backupMain, restoreMain, List.isEmpty_iff]

/-- Successful-run inversion for `syncMain`: a run that returns an outcome
connected successfully, completed the remote-root setup, and ran the three
passes in order on the data recorded in the outcome. -/
theorem syncMain_ok_elim (argData₀ : ParamArgData) (localFiles : List Path) (env : SyncEnv)
    (st₀ : RemoteState) (out : SyncOutcome)
    (h : syncMain argData₀ localFiles env st₀ = Except.ok out) :
    env.connect230 = true ∧
    ∃ setup st₁ st₂,
      remoteDirectorySetup
          { argData₀ with localDirectory := procCmdLineNormalize argData₀.localDirectory } env
        = Except.ok setup ∧
      out.mapper = { remoteDirectory := setup.finalRemoteDirectory,
                     localDirectory := procCmdLineNormalize argData₀.localDirectory } ∧
      out.madeRemotePath = setup.madeRemotePath ∧
      pass1Classify out.mapper st₀.listNames localFiles = Except.ok out.newFiles ∧
      (if out.newFiles.isEmpty then Except.ok (st₀, ([] : List Path))
        else putFiles out.mapper env st₀ out.newFiles) = Except.ok (st₁, out.transferred) ∧
      out.workingRemote = st₀.listNames ++ out.transferred ∧
      pass2 out.mapper localFiles st₁ out.workingRemote = Except.ok (st₂, out.deleted) ∧
      out.preOracle = buildOracle st₂ out.workingRemote ∧
      pass3 out.mapper env st₂ out.preOracle localFiles
        = Except.ok (out.finalState, out.oracle, out.updated) := by
  unfold syncMain at h
  cases hc : env.connect230 with
  | false => rw [hc] at h; simp at h
  | true =>
  rw [hc] at h
  simp only [if_true] at h
  cases hs : remoteDirectorySetup
      ⟨argData₀.remoteDirectory, procCmdLineNormalize argData₀.localDirectory⟩ env with
  | error e => rw [hs] at h; cases h
  | ok setup =>
  rw [hs] at h
  dsimp only at h
  cases h1 : pass1Classify
      ⟨setup.finalRemoteDirectory, procCmdLineNormalize argData₀.localDirectory⟩
      st₀.listNames localFiles with
  | error e => rw [h1] at h; cases h
  | ok nf =>
  rw [h1] at h
  dsimp only at h
  cases h2 : (if nf.isEmpty then Except.ok (st₀, ([] : List Path))
      else putFiles ⟨setup.finalRemoteDirectory, procCmdLineNormalize argData₀.localDirectory⟩
        env st₀ nf) with
  | error e => rw [h2] at h; cases h
  | ok p1 =>
  rw [h2] at h
  obtain ⟨st₁, tr⟩ := p1
  dsimp only at h
  cases h3 : pass2 ⟨setup.finalRemoteDirectory, procCmdLineNormalize argData₀.localDirectory⟩
      localFiles st₁ (st₀.listNames ++ tr) with
  | error e => rw [h3] at h; cases h
  | ok p2 =>
  rw [h3] at h
  obtain ⟨st₂, del⟩ := p2
  dsimp only at h
  cases h4 : pass3 ⟨setup.finalRemoteDirectory, procCmdLineNormalize argData₀.localDirectory⟩
      env st₂ (buildOracle st₂ (st₀.listNames ++ tr)) localFiles with
  | error e => rw [h4] at h; cases h
  | ok p3 =>
  rw [h4] at h
  obtain ⟨st₃, or₁, upd⟩ := p3
  dsimp only at h
  injection h with h
  subst h
  exact ⟨rfl, setup, st₁, st₂, rfl, rfl, rfl, h1, h2, rfl, h3, rfl, h4⟩

end FTPSync

namespace FTPSync

theorem remoteDirectorySetup_ok_inv (argData : ParamArgData) (env : SyncEnv)
    (setup : RemoteSetupResult) (h : remoteDirectorySetup argData env = Except.ok setup) :
    setup = ⟨!env.existsBefore, env.serverCwd⟩ := by
  cases hE : env.existsBefore <;> cases hA : env.existsAfterMake <;>
      simp [remoteDirectorySetup, hE, hA] at h <;>
    simp [hE, ← h]

theorem remoteDirectorySetup_ok (argData : ParamArgData) (env : SyncEnv)
    (hok : env.existsBefore = true ∨ env.existsAfterMake = true) :
    remoteDirectorySetup argData env = Except.ok ⟨!env.existsBefore, env.serverCwd⟩ := by
  cases hE : env.existsBefore <;> cases hA : env.existsAfterMake <;>
    simp [remoteDirectorySetup, hE, hA]
  rw [hE, hA] at hok
  rcases hok with h | h <;> cases h

theorem remoteDirectorySetup_err (argData : ParamArgData) (env : SyncEnv)
    (hE : env.existsBefore = false) (hA : env.existsAfterMake = false) :
    remoteDirectorySetup argData env = Except.error ("Remote FTP server directory "
      ++ String.mk argData.remoteDirectory ++ " could not created.") := by
  simp [remoteDirectorySetup, hE, hA]

theorem syncMain_setup_error (argData₀ : ParamArgData) (localFiles : List Path) (env : SyncEnv)
    (st₀ : RemoteState) (e : String) (hconn : env.connect230 = true)
    (hs : remoteDirectorySetup
        ⟨argData₀.remoteDirectory, procCmdLineNormalize argData₀.localDirectory⟩ env
      = Except.error e) :
    syncMain argData₀ localFiles env st₀ = Except.error e := by
  unfold syncMain
  rw [if_pos hconn, hs]

/-- C9 fails as stated: a run whose server reports the working directory
"/srv/backup" uses exactly that string as the remote root of the mapper,
and it does not end with a path separator — the remote root is never
normalized to end with one (the mapper inserts the separator itself). -/
theorem c9_counterexample :
    (syncMain ⟨"/old".data, "/a".data⟩ []
        ⟨true, true, true, "/srv/backup".data, fun _ => true, fun _ => true, fun _ => true,
          fun _ => 5, fun _ => 7⟩ ⟨[]⟩).map (fun out => out.mapper.remoteDirectory)
      = Except.ok "/srv/backup".data ∧
    ("/srv/backup".data : Path).getLast? ≠ some '/' :=
  ⟨rfl, by decide⟩

/-- C9 amended: the local root used by the mapper is normalized to end
with '/'; the remote root is taken verbatim from the server's reported
working directory (with no separator normalization); both are fixed once
setup completes and are the roots every pass uses. -/
theorem c9_roots_amended (argData₀ : ParamArgData) (localFiles : List Path) (env : SyncEnv)
    (st₀ : RemoteState) (out : SyncOutcome)
    (h : syncMain argData₀ localFiles env st₀ = Except.ok out) :
    (∃ b, out.mapper.localDirectory = b ++ ['/']) ∧
    out.mapper.localDirectory = procCmdLineNormalize argData₀.localDirectory ∧
    out.mapper.remoteDirectory = env.serverCwd := by
  obtain ⟨-, setup, st₁, st₂, hs, hmap, -⟩ := syncMain_ok_elim argData₀ localFiles env st₀ out h
  have hset := remoteDirectorySetup_ok_inv _ _ _ hs
  subst hset
  rw [hmap]
  exact ⟨procCmdLineNormalize_concat argData₀.localDirectory, rfl, rfl⟩

theorem c9_roots_amended_witness :
    (∃ b, ("/a/".data : Path) = b ++ ['/']) ∧
    ("/a/".data : Path) = procCmdLineNormalize "/a".data ∧
    ("/srv/backup".data : Path) = "/srv/backup".data :=
  c9_roots_amended ⟨"/old".data, "/a".data⟩ []
    ⟨true, true, true, "/srv/backup".data, fun _ => true, fun _ => true, fun _ => true,
      fun _ => 5, fun _ => 7⟩ ⟨[]⟩
    ⟨⟨"/srv/backup".data, "/a/".data⟩, false, [], [], [], [], [], [], [], ⟨[]⟩⟩ rfl

/-- C10: with a live connection, the Sync driver probes the remote root
before any listing or pass; it invokes creation exactly when the probe
fails, and when the root still does not exist after the creation attempt
the whole run aborts with a fatal error (so no pass executes and no
outcome is produced). -/
theorem c10_remote_root_setup (argData₀ : ParamArgData) (localFiles : List Path)
    (env : SyncEnv) (st₀ : RemoteState) (hconn : env.connect230 = true) :
    (env.existsBefore = false → env.existsAfterMake = false →
      syncMain argData₀ localFiles env st₀ =
        Except.error ("Remote FTP server directory "
          ++ String.mk argData₀.remoteDirectory ++ " could not created.")) ∧
    (∀ out, syncMain argData₀ localFiles env st₀ = Except.ok out →
      out.madeRemotePath = !env.existsBefore) := by
  constructor
  · intro hE hA
    exact syncMain_setup_error argData₀ localFiles env st₀ _ hconn
      (remoteDirectorySetup_err
        ⟨argData₀.remoteDirectory, procCmdLineNormalize argData₀.localDirectory⟩ env hE hA)
  · intro out h
    obtain ⟨-, setup, st₁, st₂, hs, -, hmade, -⟩ :=
      syncMain_ok_elim argData₀ localFiles env st₀ out h
    have hset := remoteDirectorySetup_ok_inv _ _ _ hs
    rw [hmade, hset]

theorem c10_remote_root_setup_witness :
    ((false : Bool) = false → (false : Bool) = false →
      syncMain ⟨"/r".data, "/a".data⟩ []
          ⟨true, false, false, "/cwd".data, fun _ => true, fun _ => true, fun _ => true,
            fun _ => 5, fun _ => 7⟩ ⟨[]⟩
        = Except.error ("Remote FTP server directory " ++ String.mk "/r".data
            ++ " could not created.")) ∧
    (∀ out, syncMain ⟨"/r".data, "/a".data⟩ []
          ⟨true, false, false, "/cwd".data, fun _ => true, fun _ => true, fun _ => true,
            fun _ => 5, fun _ => 7⟩ ⟨[]⟩ = Except.ok out →
      out.madeRemotePath = !false) :=
  c10_remote_root_setup ⟨"/r".data, "/a".data⟩ []
    ⟨true, false, false, "/cwd".data, fun _ => true, fun _ => true, fun _ => true,
      fun _ => 5, fun _ => 7⟩ ⟨[]⟩ rfl

end FTPSync

namespace FTPSync

theorem filterCongrOn {α : Type} (p q : α → Bool) :
    ∀ l : List α, (∀ a ∈ l, p a = q a) → l.filter p = l.filter q
  | [], _ => rfl
  | a :: l, h => by
    have ha := h a (by simp)
    have hl := filterCongrOn p q l (fun x hx => h x (by simp [hx]))
    by_cases hp : p a = true
    · rw [List.filter_cons_of_pos hp, List.filter_cons_of_pos (by rw [← ha]; exact hp), hl]
    · have hp' : p a = false := by revert hp; cases p a <;> simp
      rw [List.filter_cons_of_neg (by simp [hp']),
        List.filter_cons_of_neg (by simp [← ha, hp']), hl]

theorem pass1Classify_eq (argData : ParamArgData) (b : Path)
    (hnorm : argData.localDirectory = b ++ ['/']) (R : List Path) :
    ∀ ls : List Path, (∀ p ∈ ls, b.length ≤ p.length) →
      pass1Classify argData R ls
        = Except.ok (ls.filter (fun p => decide (toRemoteT argData p ∉ R)))
  | [], _ => rfl
  | f :: rest, hlen => by
    simp only [pass1Classify]
    rw [localFileToRemote_ok argData b hnorm f (hlen f (by simp))]
    rw [pass1Classify_eq argData b hnorm R rest (fun p hp => hlen p (by simp [hp]))]
    dsimp only
    by_cases hin : toRemoteT argData f ∈ R
    · rw [if_pos hin, List.filter_cons_of_neg (by simp [hin])]
    · rw [if_neg hin, List.filter_cons_of_pos (by simp [hin])]

theorem putFiles_eq (argData : ParamArgData) (env : SyncEnv) (b : Path)
    (hnorm : argData.localDirectory = b ++ ['/']) :
    ∀ (fs : List Path) (st : RemoteState), (∀ f ∈ fs, b.length ≤ f.length) →
      putFiles argData env st fs
        = Except.ok (storeFold argData env.transferOk (entryKindOf env) env.uploadTime st fs,
            (fs.filter env.transferOk).map (toRemoteT argData))
  | [], st, _ => rfl
  | f :: fs, st, hlen => by
    simp only [putFiles, storeFold]
    rw [localFileToRemote_ok argData b hnorm f (hlen f (by simp))]
    dsimp only
    by_cases hok : env.transferOk f = true
    · rw [if_pos hok, if_pos hok,
        putFiles_eq argData env b hnorm fs _ (fun g hg => hlen g (by simp [hg]))]
      dsimp only
      rw [List.filter_cons_of_pos hok, List.map_cons]
    · have hok' : env.transferOk f = false := by revert hok; cases env.transferOk f <;> simp
      rw [if_neg hok, if_neg hok,
        putFiles_eq argData env b hnorm fs st (fun g hg => hlen g (by simp [hg]))]
      rw [List.filter_cons_of_neg (by simp [hok'])]

theorem findEntry_eq_none (es : List RemoteEntry) (p : Path) :
    findEntry es p = none ↔ ∀ e ∈ es, e.name ≠ p := by
  induction es with
  | nil => simp [findEntry]
  | cons e es ih =>
    simp only [findEntry, List.mem_cons]
    by_cases he : e.name = p
    · simp [he]
    · simp only [if_neg he, ih]
      constructor
      · rintro h x (rfl | hx)
        · exact he
        · exact h x hx
      · intro h x hx
        exact h x (Or.inr hx)

theorem mem_removeNamed_of_ne (es : List RemoteEntry) (r : Path) (e : RemoteEntry)
    (he : e ∈ es) (hne : e.name ≠ r) : e ∈ removeNamed es r := by
  induction es with
  | nil => cases he
  | cons x es ih =>
    simp only [removeNamed]
    rcases List.mem_cons.1 he with rfl | he'
    · rw [if_neg hne]
      exact List.mem_cons_self _ _
    · by_cases hx : x.name = r
      · rw [if_pos hx]
        exact ih he'
      · rw [if_neg hx]
        exact List.mem_cons_of_mem _ (ih he')

theorem filter_cond_removeNamed (argData : ParamArgData) (localFiles : List Path)
    (r : Path) (w' : List Path) (hnotin : toLocalT argData r ∉ localFiles) :
    ∀ es : List RemoteEntry,
      (removeNamed es r).filter (fun e =>
          decide (toLocalT argData e.name ∈ localFiles) || !(decide (e.name ∈ w')))
        = es.filter (fun e =>
          decide (toLocalT argData e.name ∈ localFiles) || !(decide (e.name ∈ r :: w')))
  | [] => rfl
  | e :: es => by
    simp only [removeNamed]
    by_cases he : e.name = r
    · rw [if_pos he, List.filter_cons_of_neg (by simp [he, hnotin]),
        filter_cond_removeNamed argData localFiles r w' hnotin es]
    · rw [if_neg he]
      have hmemb : decide (e.name ∈ r :: w') = decide (e.name ∈ w') := by
        simp [List.mem_cons, he]
      rw [List.filter_cons, List.filter_cons]
      rw [hmemb, filter_cond_removeNamed argData localFiles r w' hnotin es]

end FTPSync

namespace FTPSync

theorem pass2_eq (argData : ParamArgData) (localFiles : List Path) :
    ∀ (w : List Path) (st : RemoteState),
      (∀ r ∈ w, argData.remoteDirectory.length + 1 ≤ r.length) →
      ∃ del, pass2 argData localFiles st w
        = Except.ok (⟨st.entries.filter (fun e =>
            decide (toLocalT argData e.name ∈ localFiles) || !(decide (e.name ∈ w)))⟩, del)
  | [], st, _ => by
    refine ⟨[], ?_⟩
    have h1 : st.entries.filter (fun e =>
        decide (toLocalT argData e.name ∈ localFiles) || !(decide (e.name ∈ ([] : List Path))))
        = st.entries := by
      rw [@List.filter_congr _ _ (fun _ => true) st.entries (fun e he => by simp),
        List.filter_true]
    show Except.ok (st, ([] : List Path)) = _
    rw [h1]
  | r :: w', st, hmap => by
    have hr := hmap r (by simp)
    simp only [pass2]
    rw [remoteFileToLocal_ok argData r hr]
    dsimp only
    by_cases hin : toLocalT argData r ∈ localFiles
    · rw [if_pos hin]
      obtain ⟨del, hdel⟩ := pass2_eq argData localFiles w' st (fun x hx => hmap x (by simp [hx]))
      refine ⟨del, ?_⟩
      rw [hdel]
      have hf : st.entries.filter (fun e =>
          decide (toLocalT argData e.name ∈ localFiles) || !(decide (e.name ∈ w')))
          = st.entries.filter (fun e =>
          decide (toLocalT argData e.name ∈ localFiles) || !(decide (e.name ∈ r :: w'))) :=
        List.filter_congr (fun e he => by
          by_cases hen : e.name = r
          · simp [hen, hin]
          · simp [List.mem_cons, hen])
      rw [hf]
    · rw [if_neg hin]
      cases hfe : findEntry st.entries r with
      | some e0 =>
        by_cases hk : e0.kind = EntryKind.file
        · have hd : st.deleteFile r = (⟨removeNamed st.entries r⟩, 250) := by
            simp [RemoteState.deleteFile, hfe, hk]
          rw [hd]
          dsimp only
          rw [if_pos rfl]
          obtain ⟨del, hdel⟩ := pass2_eq argData localFiles w' ⟨removeNamed st.entries r⟩
            (fun x hx => hmap x (by simp [hx]))
          rw [hdel]
          dsimp only
          refine ⟨r :: del, ?_⟩
          rw [filter_cond_removeNamed argData localFiles r w' hin st.entries]
        · have hkd : e0.kind = EntryKind.dir := by
            cases hke : e0.kind
            · exact absurd hke hk
            · rfl
          have hd1 : st.deleteFile r = (st, 550) := by
            simp [RemoteState.deleteFile, hfe, hk]
          have hd2 : st.removeDirectory r = (⟨removeNamed st.entries r⟩, 250) := by
            simp [RemoteState.removeDirectory, hfe, hkd]
          rw [hd1]
          dsimp only
          rw [if_neg (by decide : ¬ (550 : Nat) = 250), hd2]
          dsimp only
          rw [if_pos rfl]
          obtain ⟨del, hdel⟩ := pass2_eq argData localFiles w' ⟨removeNamed st.entries r⟩
            (fun x hx => hmap x (by simp [hx]))
          rw [hdel]
          dsimp only
          refine ⟨r :: del, ?_⟩
          rw [filter_cond_removeNamed argData localFiles r w' hin st.entries]
      | none =>
        have hd1 : st.deleteFile r = (st, 550) := by
          simp [RemoteState.deleteFile, hfe]
        have hd2 : st.removeDirectory r = (st, 550) := by
          simp [RemoteState.removeDirectory, hfe]
        rw [hd1]
        dsimp only
        rw [if_neg (by decide : ¬ (550 : Nat) = 250), hd2]
        dsimp only
        rw [if_neg (by decide : ¬ (550 : Nat) = 250)]
        obtain ⟨del, hdel⟩ := pass2_eq argData localFiles w' st (fun x hx => hmap x (by simp [hx]))
        refine ⟨del, ?_⟩
        rw [hdel]
        have hnone := (findEntry_eq_none st.entries r).1 hfe
        have hf : st.entries.filter (fun e =>
            decide (toLocalT argData e.name ∈ localFiles) || !(decide (e.name ∈ w')))
            = st.entries.filter (fun e =>
            decide (toLocalT argData e.name ∈ localFiles) || !(decide (e.name ∈ r :: w'))) :=
          List.filter_congr (fun e he => by
            have hne : e.name ≠ r := hnone e he
            simp [List.mem_cons, hne])
        rw [hf]

theorem pass2_noop (argData : ParamArgData) (localFiles : List Path) :
    ∀ (w : List Path) (st : RemoteState),
      (∀ r ∈ w, ∃ l, remoteFileToLocal argData r = Except.ok l ∧ l ∈ localFiles) →
      pass2 argData localFiles st w = Except.ok (st, [])
  | [], _, _ => rfl
  | r :: w', st, h => by
    obtain ⟨l, hml, hl⟩ := h r (by simp)
    simp only [pass2]
    rw [hml]
    dsimp only
    rw [if_pos hl]
    exact pass2_noop argData localFiles w' st (fun x hx => h x (by simp [hx]))

end FTPSync

namespace FTPSync

/-- C4: in Pass 2, a remote name is (successfully) deleted only if its
mapped local path is absent from the local snapshot, and every server
entry whose name maps into the local snapshot survives the pass — no
local-backed path is ever deleted. -/
theorem c4_pass2_soundness (argData : ParamArgData) (localFiles : List Path) :
    ∀ (w : List Path) (st st' : RemoteState) (deleted : List Path),
      pass2 argData localFiles st w = Except.ok (st', deleted) →
      (∀ r ∈ deleted, ∃ l, remoteFileToLocal argData r = Except.ok l ∧ l ∉ localFiles) ∧
      (∀ e ∈ st.entries,
        (∀ l, remoteFileToLocal argData e.name = Except.ok l → l ∈ localFiles) →
        e ∈ st'.entries)
  | [], st, st', deleted, h => by
    have h' : Except.ok (st, ([] : List Path)) = Except.ok (st', deleted) := h
    injection h' with h'
    injection h' with h1 h2
    subst h1
    subst h2
    exact ⟨fun r hr => absurd hr (List.not_mem_nil r), fun e he _ => he⟩
  | r :: w', st, st', deleted, h => by
    simp only [pass2] at h
    cases hm : remoteFileToLocal argData r with
    | error e => rw [hm] at h; cases h
    | ok l =>
    rw [hm] at h
    dsimp only at h
    by_cases hin : l ∈ localFiles
    · rw [if_pos hin] at h
      exact c4_pass2_soundness argData localFiles w' st st' deleted h
    · rw [if_neg hin] at h
      cases hfe : findEntry st.entries r with
      | some e0 =>
        by_cases hk : e0.kind = EntryKind.file
        · have hd : st.deleteFile r = (⟨removeNamed st.entries r⟩, 250) := by
            simp [RemoteState.deleteFile, hfe, hk]
          rw [hd] at h
          dsimp only at h
          rw [if_pos rfl] at h
          cases hrec : pass2 argData localFiles ⟨removeNamed st.entries r⟩ w' with
          | error e => rw [hrec] at h; cases h
          | ok pr =>
          obtain ⟨stR, delR⟩ := pr
          rw [hrec] at h
          dsimp only at h
          injection h with h
          injection h with h1 h2
          subst h1
          subst h2
          obtain ⟨hdel, hpres⟩ :=
            c4_pass2_soundness argData localFiles w' ⟨removeNamed st.entries r⟩ stR delR hrec
          constructor
          · intro x hx
            rcases List.mem_cons.1 hx with rfl | hx'
            · exact ⟨l, hm, hin⟩
            · exact hdel x hx'
          · intro e he hloc
            have hne : e.name ≠ r := by
              intro hEq
              exact hin (hloc l (by rw [hEq]; exact hm))
            exact hpres e (mem_removeNamed_of_ne st.entries r e he hne) hloc
        · have hkd : e0.kind = EntryKind.dir := by
            cases hke : e0.kind
            · exact absurd hke hk
            · rfl
          have hd1 : st.deleteFile r = (st, 550) := by
            simp [RemoteState.deleteFile, hfe, hk]
          have hd2 : st.removeDirectory r = (⟨removeNamed st.entries r⟩, 250) := by
            simp [RemoteState.removeDirectory, hfe, hkd]
          rw [hd1] at h
          dsimp only at h
          rw [if_neg (by decide : ¬ (550 : Nat) = 250), hd2] at h
          dsimp only at h
          rw [if_pos rfl] at h
          cases hrec : pass2 argData localFiles ⟨removeNamed st.entries r⟩ w' with
          | error e => rw [hrec] at h; cases h
          | ok pr =>
          obtain ⟨stR, delR⟩ := pr
          rw [hrec] at h
          dsimp only at h
          injection h with h
          injection h with h1 h2
          subst h1
          subst h2
          obtain ⟨hdel, hpres⟩ :=
            c4_pass2_soundness argData localFiles w' ⟨removeNamed st.entries r⟩ stR delR hrec
          constructor
          · intro x hx
            rcases List.mem_cons.1 hx with rfl | hx'
            · exact ⟨l, hm, hin⟩
            · exact hdel x hx'
          · intro e he hloc
            have hne : e.name ≠ r := by
              intro hEq
              exact hin (hloc l (by rw [hEq]; exact hm))
            exact hpres e (mem_removeNamed_of_ne st.entries r e he hne) hloc
      | none =>
        have hd1 : st.deleteFile r = (st, 550) := by
          simp [RemoteState.deleteFile, hfe]
        have hd2 : st.removeDirectory r = (st, 550) := by
          simp [RemoteState.removeDirectory, hfe]
        rw [hd1] at h
        dsimp only at h
        rw [if_neg (by decide : ¬ (550 : Nat) = 250), hd2] at h
        dsimp only at h
        rw [if_neg (by decide : ¬ (550 : Nat) = 250)] at h
        exact c4_pass2_soundness argData localFiles w' st st' deleted h

theorem c4_pass2_soundness_witness :
    (∀ r ∈ (["/r/g".data] : List Path), ∃ l,
      remoteFileToLocal ⟨"/r".data, "/a/".data⟩ r = Except.ok l ∧
        l ∉ (["/a/f".data] : List Path)) ∧
    (∀ e ∈ ([⟨"/r/f".data, EntryKind.file, 3⟩, ⟨"/r/g".data, EntryKind.file, 4⟩] :
        List RemoteEntry),
      (∀ l, remoteFileToLocal ⟨"/r".data, "/a/".data⟩ e.name = Except.ok l →
        l ∈ (["/a/f".data] : List Path)) →
      e ∈ ([⟨"/r/f".data, EntryKind.file, 3⟩] : List RemoteEntry)) :=
  c4_pass2_soundness ⟨"/r".data, "/a/".data⟩ ["/a/f".data] ["/r/f".data, "/r/g".data]
    ⟨[⟨"/r/f".data, EntryKind.file, 3⟩, ⟨"/r/g".data, EntryKind.file, 4⟩]⟩
    ⟨[⟨"/r/f".data, EntryKind.file, 3⟩]⟩ ["/r/g".data] rfl

end FTPSync

namespace FTPSync

theorem oracleFind_append_of_none (b : List (Path × Nat)) (k : Path) :
    ∀ a : List (Path × Nat), oracleFind a k = none →
      oracleFind (a ++ b) k = oracleFind b k
  | [], _ => rfl
  | e :: a, h => by
    show (if e.1 = k then some e.2 else oracleFind (a ++ b) k) = oracleFind b k
    have h' : (if e.1 = k then some e.2 else oracleFind a k) = none := h
    by_cases he : e.1 = k
    · rw [if_pos he] at h'
      cases h'
    · rw [if_neg he] at h'
      rw [if_neg he, oracleFind_append_of_none b k a h']

theorem oracleFind_append_of_some (b : List (Path × Nat)) (k : Path) (v : Nat) :
    ∀ a : List (Path × Nat), oracleFind a k = some v →
      oracleFind (a ++ b) k = some v
  | [], h => by cases h
  | e :: a, h => by
    show (if e.1 = k then some e.2 else oracleFind (a ++ b) k) = some v
    have h' : (if e.1 = k then some e.2 else oracleFind a k) = some v := h
    by_cases he : e.1 = k
    · rw [if_pos he] at h'
      rw [if_pos he, h']
    · rw [if_neg he] at h'
      rw [if_neg he, oracleFind_append_of_some b k v a h']

theorem mapIndex_snd (m : List (Path × Nat)) (k : Path) :
    (mapIndex m k).2 = oracleFindD m k := by
  unfold mapIndex oracleFindD
  cases h : oracleFind m k <;> simp [h]

theorem mapIndex_fst_findD (m : List (Path × Nat)) (k k' : Path) :
    oracleFindD (mapIndex m k).1 k' = oracleFindD m k' := by
  unfold mapIndex
  cases h : oracleFind m k with
  | some v => rfl
  | none =>
    dsimp only
    unfold oracleFindD
    cases h' : oracleFind m k' with
    | some v => rw [oracleFind_append_of_some [(k, 0)] k' v m h']
    | none =>
      rw [oracleFind_append_of_none [(k, 0)] k' m h']
      show (if k = k' then some 0 else none).getD 0 = (none : Option Nat).getD 0
      by_cases hk : k = k'
      · rw [if_pos hk]
        rfl
      · rw [if_neg hk]

theorem oracleFind_buildOracle (st : RemoteState) :
    ∀ (w : List Path), w.Nodup → ∀ k : Path,
      oracleFind (buildOracle st w) k
        = if k ∈ w then st.getModifiedDateTime k else none
  | [], _, k => by simp [buildOracle, oracleFind]
  | r :: w', hnd, k => by
    obtain ⟨hr, hnd'⟩ := List.nodup_cons.1 hnd
    have ih := oracleFind_buildOracle st w' hnd' k
    simp only [buildOracle]
    cases hq : st.getModifiedDateTime r with
    | some t =>
      show (if r = k then some t else oracleFind (buildOracle st w') k) = _
      by_cases hk : r = k
      · subst hk
        rw [if_pos rfl, if_pos (List.mem_cons_self r w'), hq]
      · rw [if_neg hk, ih]
        by_cases hkw : k ∈ w'
        · rw [if_pos hkw, if_pos (List.mem_cons_of_mem r hkw)]
        · rw [if_neg hkw, if_neg (fun hmem => by
            rcases List.mem_cons.1 hmem with h1 | h2
            · exact hk h1.symm
            · exact hkw h2)]
    | none =>
      show oracleFind (buildOracle st w') k = _
      rw [ih]
      by_cases hk : k = r
      · subst hk
        rw [if_neg hr, if_pos (List.mem_cons_self k w'), hq]
      · by_cases hkw : k ∈ w'
        · rw [if_pos hkw, if_pos (List.mem_cons_of_mem r hkw)]
        · rw [if_neg hkw, if_neg (fun hmem => by
            rcases List.mem_cons.1 hmem with h1 | h2
            · exact hk h1
            · exact hkw h2)]

theorem pass3_eq (argData : ParamArgData) (env : SyncEnv) (b : Path)
    (hnorm : argData.localDirectory = b ++ ['/']) :
    ∀ (ls : List Path) (st : RemoteState) (m : List (Path × Nat)),
      (∀ p ∈ ls, env.isFileEnv p = true → b.length ≤ p.length) →
      ∃ m', pass3 argData env st m ls = Except.ok
        (storeFold argData env.pushOk (fun _ => EntryKind.file) env.uploadTime st
          (ls.filter (fun p => env.isFileEnv p &&
            decide (oracleFindD m (toRemoteT argData p) < env.lastWriteTime p))),
        m',
        ls.filter (fun p => env.isFileEnv p &&
          decide (oracleFindD m (toRemoteT argData p) < env.lastWriteTime p)))
  | [], st, m, _ => ⟨m, rfl⟩
  | f :: rest, st, m, hlen => by
    simp only [pass3]
    by_cases hf : env.isFileEnv f = true
    · rw [if_pos hf, localFileToRemote_ok argData b hnorm f (hlen f (by simp) hf)]
      dsimp only
      have hfix : (fun p => env.isFileEnv p &&
            decide (oracleFindD (mapIndex m (toRemoteT argData f)).1 (toRemoteT argData p)
              < env.lastWriteTime p))
          = (fun p => env.isFileEnv p &&
            decide (oracleFindD m (toRemoteT argData p) < env.lastWriteTime p)) :=
        funext (fun p => by rw [mapIndex_fst_findD])
      by_cases hlt : (mapIndex m (toRemoteT argData f)).2 < env.lastWriteTime f
      · rw [if_pos hlt]
        obtain ⟨m', hm'⟩ := pass3_eq argData env b hnorm rest
          (if env.pushOk f = true
            then RemoteState.store st (toRemoteT argData f) EntryKind.file (env.uploadTime f)
            else st)
          (mapIndex m (toRemoteT argData f)).1
          (fun p hp hfp => hlen p (by simp [hp]) hfp)
        rw [hfix] at hm'
        rw [hm']
        dsimp only
        refine ⟨m', ?_⟩
        have hcond : (env.isFileEnv f &&
            decide (oracleFindD m (toRemoteT argData f) < env.lastWriteTime f)) = true := by
          rw [mapIndex_snd] at hlt
          simp [hf, hlt]
        have hfil : (f :: rest).filter (fun p => env.isFileEnv p &&
              decide (oracleFindD m (toRemoteT argData p) < env.lastWriteTime p))
            = f :: rest.filter (fun p => env.isFileEnv p &&
              decide (oracleFindD m (toRemoteT argData p) < env.lastWriteTime p)) := by
          rw [List.filter_cons]
          simp [hcond]
        rw [hfil]
        rfl
      · rw [if_neg hlt]
        obtain ⟨m', hm'⟩ := pass3_eq argData env b hnorm rest st
          (mapIndex m (toRemoteT argData f)).1
          (fun p hp hfp => hlen p (by simp [hp]) hfp)
        rw [hfix] at hm'
        rw [hm']
        refine ⟨m', ?_⟩
        have hcond : ¬ (env.isFileEnv f &&
            decide (oracleFindD m (toRemoteT argData f) < env.lastWriteTime f)) = true := by
          rw [mapIndex_snd] at hlt
          simp [hf, hlt]
        have hfil : (f :: rest).filter (fun p => env.isFileEnv p &&
              decide (oracleFindD m (toRemoteT argData p) < env.lastWriteTime p))
            = rest.filter (fun p => env.isFileEnv p &&
              decide (oracleFindD m (toRemoteT argData p) < env.lastWriteTime p)) := by
          rw [List.filter_cons]
          simp [hcond]
        rw [hfil]
    · rw [if_neg hf]
      obtain ⟨m', hm'⟩ := pass3_eq argData env b hnorm rest st m
        (fun p hp hfp => hlen p (by simp [hp]) hfp)
      rw [hm']
      refine ⟨m', ?_⟩
      have hcond : ¬ (env.isFileEnv f &&
          decide (oracleFindD m (toRemoteT argData f) < env.lastWriteTime f)) = true := by
        simp [hf]
      have hfil : (f :: rest).filter (fun p => env.isFileEnv p &&
            decide (oracleFindD m (toRemoteT argData p) < env.lastWriteTime p))
          = rest.filter (fun p => env.isFileEnv p &&
            decide (oracleFindD m (toRemoteT argData p) < env.lastWriteTime p)) := by
        rw [List.filter_cons]
        simp [hcond]
      rw [hfil]

end FTPSync

namespace FTPSync

theorem length_of_starts (b pre p : Path) (hpre : pre = b ++ ['/'])
    (h : startsList pre p = true) : b.length ≤ p.length := by
  obtain ⟨t, ht⟩ := (startsList_iff pre p).1 h
  subst ht
  rw [hpre]
  simp only [List.length_append, List.length_cons, List.length_nil]
  omega

/-- C3: Pass 1 classifies exactly the local paths whose mapped remote name
is absent from the pre-pass remote snapshot; the transferred list is the
mapped names of the successfully transferred classified paths; and the
working remote snapshot handed to Passes 2 and 3 is the pre-pass snapshot
together with those mapped names. -/
theorem c3_pass1_classification_union (argData₀ : ParamArgData) (localFiles : List Path)
    (env : SyncEnv) (st₀ : RemoteState) (out : SyncOutcome)
    (h : syncMain argData₀ localFiles env st₀ = Except.ok out)
    (hstart : ∀ p ∈ localFiles,
      startsList (procCmdLineNormalize argData₀.localDirectory) p = true) :
    (∀ p, p ∈ out.newFiles ↔ p ∈ localFiles ∧ toRemoteT out.mapper p ∉ st₀.listNames) ∧
    out.transferred = (out.newFiles.filter env.transferOk).map (toRemoteT out.mapper) ∧
    out.workingRemote = st₀.listNames ++ out.transferred := by
  obtain ⟨-, setup, st₁, st₂, hs, hmap, hmade, h1, h2, hwork, -⟩ :=
    syncMain_ok_elim argData₀ localFiles env st₀ out h
  obtain ⟨b, hb⟩ := procCmdLineNormalize_concat argData₀.localDirectory
  have hnorm : out.mapper.localDirectory = b ++ ['/'] := by rw [hmap]; exact hb
  have hlen : ∀ p ∈ localFiles, b.length ≤ p.length :=
    fun p hp => length_of_starts b _ p hb (hstart p hp)
  have hcls := pass1Classify_eq out.mapper b hnorm st₀.listNames localFiles hlen
  rw [h1] at hcls
  injection hcls with hcls
  refine ⟨?_, ?_, hwork⟩
  · intro p
    rw [hcls, List.mem_filter]
    simp only [decide_eq_true_eq]
  · by_cases hempty : out.newFiles.isEmpty
    · rw [if_pos hempty] at h2
      injection h2 with h2
      injection h2 with h21 h22
      have hnil : out.newFiles = [] := List.isEmpty_iff.1 hempty
      rw [← h22, hnil]
      rfl
    · rw [if_neg hempty] at h2
      have hsub : ∀ f ∈ out.newFiles, b.length ≤ f.length := fun f hf =>
        hlen f (List.mem_filter.1 (hcls ▸ hf)).1
      have hput := putFiles_eq out.mapper env b hnorm out.newFiles st₀ hsub
      rw [h2] at hput
      simp only [Except.ok.injEq, Prod.mk.injEq] at hput
      exact hput.2

theorem c3_pass1_classification_union_witness :
    (∀ p, p ∈ (["/a/f.txt".data] : List Path) ↔
        p ∈ (["/a/f.txt".data] : List Path) ∧
          toRemoteT ⟨"/r".data, "/a/".data⟩ p ∉ (⟨[]⟩ : RemoteState).listNames) ∧
    (["/r/f.txt".data] : List Path)
        = ((["/a/f.txt".data] : List Path).filter (fun _ => true)).map
            (toRemoteT ⟨"/r".data, "/a/".data⟩) ∧
    (["/r/f.txt".data] : List Path)
        = (⟨[]⟩ : RemoteState).listNames ++ ["/r/f.txt".data] :=
  c3_pass1_classification_union ⟨"/x".data, "/a".data⟩ ["/a/f.txt".data]
    ⟨true, true, true, "/r".data, fun _ => true, fun _ => true, fun _ => true,
      fun _ => 5, fun _ => 7⟩ ⟨[]⟩
    ⟨⟨"/r".data, "/a/".data⟩, false, ["/a/f.txt".data], ["/r/f.txt".data], ["/r/f.txt".data],
      [], [("/r/f.txt".data, 7)], [("/r/f.txt".data, 7)], [],
      ⟨[⟨"/r/f.txt".data, EntryKind.file, 7⟩]⟩⟩
    rfl (by decide)

/-- C2: in Pass 3, an update push is attempted for a local path exactly
when it is a file and the oracle either has no entry for its mapped
remote name or records a strictly older timestamp.  The hypothesis
`hpos` reflects that a real local modification time converts to a
`CFTP::DateTime` strictly above the default-constructed one the
`operator[]` lookup substitutes for a missing entry. -/
theorem c2_pass3_update_iff (argData₀ : ParamArgData) (localFiles : List Path)
    (env : SyncEnv) (st₀ : RemoteState) (out : SyncOutcome)
    (h : syncMain argData₀ localFiles env st₀ = Except.ok out)
    (hstart : ∀ p ∈ localFiles, env.isFileEnv p = true →
      startsList (procCmdLineNormalize argData₀.localDirectory) p = true)
    (hpos : ∀ p ∈ localFiles, 0 < env.lastWriteTime p) :
    ∀ p, p ∈ out.updated ↔ p ∈ localFiles ∧ env.isFileEnv p = true ∧
      (oracleFind out.preOracle (toRemoteT out.mapper p) = none ∨
       ∃ v, oracleFind out.preOracle (toRemoteT out.mapper p) = some v ∧
         v < env.lastWriteTime p) := by
  obtain ⟨-, setup, st₁, st₂, hs, hmap, hmade, h1, h2, hwork, h3, hpre, h4⟩ :=
    syncMain_ok_elim argData₀ localFiles env st₀ out h
  obtain ⟨b, hb⟩ := procCmdLineNormalize_concat argData₀.localDirectory
  have hnorm : out.mapper.localDirectory = b ++ ['/'] := by rw [hmap]; exact hb
  have hlen : ∀ p ∈ localFiles, env.isFileEnv p = true → b.length ≤ p.length :=
    fun p hp hf => length_of_starts b _ p hb (hstart p hp hf)
  obtain ⟨m', hp3⟩ := pass3_eq out.mapper env b hnorm localFiles st₂ out.preOracle hlen
  rw [h4] at hp3
  injection hp3 with hp3
  injection hp3 with hp3a hp3bc
  injection hp3bc with hp3b hp3c
  intro p
  rw [hp3c, List.mem_filter]
  constructor
  · rintro ⟨hp, hcond⟩
    rw [Bool.and_eq_true, decide_eq_true_eq] at hcond
    obtain ⟨hfb, hlt⟩ := hcond
    refine ⟨hp, hfb, ?_⟩
    unfold oracleFindD at hlt
    cases hfind : oracleFind out.preOracle (toRemoteT out.mapper p) with
    | none => exact Or.inl rfl
    | some v =>
      refine Or.inr ⟨v, rfl, ?_⟩
      rw [hfind] at hlt
      exact hlt
  · rintro ⟨hp, hfb, hor⟩
    refine ⟨hp, ?_⟩
    rw [Bool.and_eq_true, decide_eq_true_eq]
    refine ⟨hfb, ?_⟩
    unfold oracleFindD
    rcases hor with hnone | ⟨v, hv, hlt⟩
    · rw [hnone]
      exact hpos p hp
    · rw [hv]
      exact hlt

theorem c2_pass3_update_iff_witness :
    "/a/f.txt".data ∈ (["/a/f.txt".data] : List Path) ↔
      "/a/f.txt".data ∈ (["/a/f.txt".data] : List Path) ∧ (true : Bool) = true ∧
        (oracleFind [] (toRemoteT ⟨"/r".data, "/a/".data⟩ "/a/f.txt".data) = none ∨
         ∃ v, oracleFind [] (toRemoteT ⟨"/r".data, "/a/".data⟩ "/a/f.txt".data) = some v ∧
           v < 5) :=
  c2_pass3_update_iff ⟨"/x".data, "/a".data⟩ ["/a/f.txt".data]
    ⟨true, true, true, "/r".data, fun _ => false, fun _ => true, fun _ => true,
      fun _ => 5, fun _ => 7⟩ ⟨[]⟩
    ⟨⟨"/r".data, "/a/".data⟩, false, ["/a/f.txt".data], [], [], [],
      [], [("/r/f.txt".data, 0)], ["/a/f.txt".data],
      ⟨[⟨"/r/f.txt".data, EntryKind.file, 7⟩]⟩⟩
    rfl (by decide) (by decide) "/a/f.txt".data

theorem buildOracle_mem (st : RemoteState) :
    ∀ (w : List Path) (k : Path) (v : Nat), (k, v) ∈ buildOracle st w →
      st.getModifiedDateTime k = some v
  | [], k, v, hv => absurd hv (List.not_mem_nil _)
  | r :: w', k, v, hv => by
    simp only [buildOracle] at hv
    cases hq : st.getModifiedDateTime r with
    | some t =>
      rw [hq] at hv
      rcases List.mem_cons.1 hv with heq | hv'
      · injection heq with h1 h2
        subst h1
        subst h2
        exact hq
      · exact buildOracle_mem st w' k v hv'
    | none =>
      rw [hq] at hv
      exact buildOracle_mem st w' k v hv

/-- C6 fails as stated: in this run a Pass-1 transfer failure leaves the
mapped remote name of the only local file without any successful
modification-time query (the oracle as built is empty), yet the Pass-3
`operator[]` lookup gives exactly that name a default zero timestamp and
stores it in the oracle. -/
theorem c6_counterexample :
    (syncMain ⟨"/x".data, "/a".data⟩ ["/a/f.txt".data]
        ⟨true, true, true, "/r".data, fun _ => false, fun _ => true, fun _ => true,
          fun _ => 5, fun _ => 7⟩ ⟨[]⟩).map
        (fun out => (out.preOracle, out.oracle))
      = Except.ok ([], [("/r/f.txt".data, 0)]) ∧
    RemoteState.getModifiedDateTime ⟨[]⟩ "/r/f.txt".data = none :=
  ⟨rfl, rfl⟩

/-- C6 amended: the oracle as built by the Pass-3 construction loop holds
entries only for remote paths whose modification-time query succeeded
(never a defaulted value); however, the Pass-3 comparison reads the map
through `operator[]`, which gives any absent key the default zero
timestamp and inserts it into the map. -/
theorem c6_oracle_amended (st : RemoteState) (w : List Path) (k q : Path) (v : Nat)
    (hv : (k, v) ∈ buildOracle st w)
    (hq : oracleFind (buildOracle st w) q = none) :
    st.getModifiedDateTime k = some v ∧
    mapIndex (buildOracle st w) q = (buildOracle st w ++ [(q, 0)], 0) := by
  refine ⟨buildOracle_mem st w k v hv, ?_⟩
  unfold mapIndex
  rw [hq]

theorem c6_oracle_amended_witness :
    RemoteState.getModifiedDateTime ⟨[⟨"/s/a".data, EntryKind.file, 3⟩]⟩ "/s/a".data
      = some 3 ∧
    mapIndex (buildOracle ⟨[⟨"/s/a".data, EntryKind.file, 3⟩]⟩ ["/s/a".data, "/s/b".data])
        "/s/b".data
      = (buildOracle ⟨[⟨"/s/a".data, EntryKind.file, 3⟩]⟩ ["/s/a".data, "/s/b".data]
          ++ [("/s/b".data, 0)], 0) :=
  c6_oracle_amended ⟨[⟨"/s/a".data, EntryKind.file, 3⟩]⟩ ["/s/a".data, "/s/b".data]
    "/s/a".data "/s/b".data 3 (by decide) rfl

end FTPSync

namespace FTPSync

theorem filter_of_all_true {α : Type} (f : α → Bool) (h : ∀ x, f x = true) (l : List α) :
    l.filter f = l := by
  rw [@List.filter_congr _ _ (fun _ => true) l (fun x hx => h x), List.filter_true]

theorem findEntry_storeNamed_self (p : Path) (k : EntryKind) (t : Nat) :
    ∀ es : List RemoteEntry, findEntry (storeNamed es p k t) p = some ⟨p, k, t⟩
  | [] => by simp [storeNamed, findEntry]
  | e :: es => by
    simp only [storeNamed]
    by_cases he : e.name = p
    · rw [if_pos he]
      simp [findEntry]
    · rw [if_neg he]
      show (if e.name = p then some e else findEntry (storeNamed es p k t) p) = _
      rw [if_neg he, findEntry_storeNamed_self p k t es]

theorem findEntry_storeNamed_ne (p q : Path) (k : EntryKind) (t : Nat) (hne : q ≠ p) :
    ∀ es : List RemoteEntry, findEntry (storeNamed es p k t) q = findEntry es q
  | [] => by
    simp only [storeNamed, findEntry]
    rw [if_neg (fun h => hne h.symm)]
  | e :: es => by
    simp only [storeNamed]
    by_cases he : e.name = p
    · rw [if_pos he]
      show (if p = q then some (⟨p, k, t⟩ : RemoteEntry) else findEntry es q) = _
      rw [if_neg (fun h => hne h.symm)]
      show findEntry es q = if e.name = q then some e else findEntry es q
      rw [if_neg (fun h => hne (he ▸ h).symm)]
    · rw [if_neg he]
      show (if e.name = q then some e else findEntry (storeNamed es p k t) q) = _
      rw [findEntry_storeNamed_ne p q k t hne es]
      rfl

theorem mem_storeNamed (p : Path) (k : EntryKind) (t : Nat) :
    ∀ (es : List RemoteEntry) (x : RemoteEntry),
      x ∈ storeNamed es p k t → x ∈ es ∨ x = ⟨p, k, t⟩
  | [], x, hx => by
    simp only [storeNamed] at hx
    rcases List.mem_cons.1 hx with h | h
    · exact Or.inr h
    · cases h
  | e :: es, x, hx => by
    simp only [storeNamed] at hx
    by_cases he : e.name = p
    · rw [if_pos he] at hx
      rcases List.mem_cons.1 hx with h | h
      · exact Or.inr h
      · exact Or.inl (List.mem_cons_of_mem _ h)
    · rw [if_neg he] at hx
      rcases List.mem_cons.1 hx with h | h
      · exact Or.inl (h ▸ List.mem_cons_self _ _)
      · rcases mem_storeNamed p k t es x h with h' | h'
        · exact Or.inl (List.mem_cons_of_mem _ h')
        · exact Or.inr h'

theorem nodup_names_storeNamed (p : Path) (k : EntryKind) (t : Nat) :
    ∀ es : List RemoteEntry, (es.map RemoteEntry.name).Nodup →
      ((storeNamed es p k t).map RemoteEntry.name).Nodup
  | [], _ => by simp [storeNamed]
  | e :: es, hnd => by
    rw [List.map_cons] at hnd
    obtain ⟨hh, htail⟩ := List.nodup_cons.1 hnd
    simp only [storeNamed]
    by_cases he : e.name = p
    · rw [if_pos he]
      simp only [List.map_cons, List.nodup_cons]
      exact ⟨by rw [← he]; exact hh, htail⟩
    · rw [if_neg he]
      simp only [List.map_cons, List.nodup_cons]
      refine ⟨?_, nodup_names_storeNamed p k t es htail⟩
      intro hmem
      rcases List.mem_map.1 hmem with ⟨x, hx, hxname⟩
      rcases mem_storeNamed p k t es x hx with h' | h'
      · exact hh (hxname ▸ List.mem_map.2 ⟨x, h', rfl⟩)
      · rw [h'] at hxname
        exact he hxname.symm

theorem findEntry_mem_names :
    ∀ (es : List RemoteEntry) (q : Path) (e : RemoteEntry),
      findEntry es q = some e → e ∈ es ∧ e.name = q
  | [], q, e, h => by cases h
  | x :: es, q, e, h => by
    have h' : (if x.name = q then some x else findEntry es q) = some e := h
    by_cases hx : x.name = q
    · rw [if_pos hx] at h'
      injection h' with h'
      subst h'
      exact ⟨List.mem_cons_self _ _, hx⟩
    · rw [if_neg hx] at h'
      obtain ⟨h1, h2⟩ := findEntry_mem_names es q e h'
      exact ⟨List.mem_cons_of_mem _ h1, h2⟩

theorem exists_findEntry_of_mem_names :
    ∀ (es : List RemoteEntry) (q : Path), q ∈ es.map RemoteEntry.name →
      ∃ e, findEntry es q = some e ∧ e ∈ es ∧ e.name = q
  | [], q, h => by cases h
  | x :: es, q, h => by
    by_cases hx : x.name = q
    · refine ⟨x, ?_, List.mem_cons_self _ _, hx⟩
      show (if x.name = q then some x else findEntry es q) = some x
      rw [if_pos hx]
    · have h' : q ∈ es.map RemoteEntry.name := by
        rw [List.map_cons] at h
        rcases List.mem_cons.1 h with h1 | h1
        · exact absurd h1.symm hx
        · exact h1
      obtain ⟨e, he1, he2, he3⟩ := exists_findEntry_of_mem_names es q h'
      refine ⟨e, ?_, List.mem_cons_of_mem _ he2, he3⟩
      show (if x.name = q then some x else findEntry es q) = some e
      rw [if_neg hx, he1]

theorem findEntry_storeFold_not (argData : ParamArgData) (sel : Path → Bool)
    (kindOf : Path → EntryKind) (tOf : Path → Nat) :
    ∀ (fs : List Path) (st : RemoteState) (q : Path),
      (∀ f ∈ fs, sel f = true → toRemoteT argData f ≠ q) →
      findEntry (storeFold argData sel kindOf tOf st fs).entries q = findEntry st.entries q
  | [], st, q, _ => rfl
  | f :: fs, st, q, h => by
    simp only [storeFold]
    rw [findEntry_storeFold_not argData sel kindOf tOf fs _ q
      (fun g hg hs => h g (by simp [hg]) hs)]
    by_cases hs : sel f = true
    · rw [if_pos hs]
      exact findEntry_storeNamed_ne (toRemoteT argData f) q (kindOf f) (tOf f)
        (fun hq => h f (by simp) hs hq.symm) st.entries
    · rw [if_neg hs]

theorem findEntry_storeFold_mem (argData : ParamArgData) (sel : Path → Bool)
    (kindOf : Path → EntryKind) (tOf : Path → Nat) :
    ∀ (fs : List Path) (st : RemoteState) (f : Path),
      f ∈ fs → sel f = true →
      (∀ g ∈ fs, sel g = true → toRemoteT argData g = toRemoteT argData f → g = f) →
      findEntry (storeFold argData sel kindOf tOf st fs).entries (toRemoteT argData f)
        = some ⟨toRemoteT argData f, kindOf f, tOf f⟩
  | [], _, f, hf, _, _ => absurd hf (List.not_mem_nil f)
  | g :: fs, st, f, hf, hsel, huniq => by
    simp only [storeFold]
    by_cases hffs : f ∈ fs
    · exact findEntry_storeFold_mem argData sel kindOf tOf fs _ f hffs hsel
        (fun x hx hsx hex => huniq x (by simp [hx]) hsx hex)
    · have hfg : f = g := by
        rcases List.mem_cons.1 hf with h | h
        · exact h
        · exact absurd h hffs
      subst hfg
      rw [findEntry_storeFold_not argData sel kindOf tOf fs _ (toRemoteT argData f)
        (fun x hx hsx hex => hffs ((huniq x (by simp [hx]) hsx hex) ▸ hx))]
      rw [if_pos hsel]
      exact findEntry_storeNamed_self (toRemoteT argData f) (kindOf f) (tOf f) st.entries

theorem mem_storeFold (argData : ParamArgData) (sel : Path → Bool)
    (kindOf : Path → EntryKind) (tOf : Path → Nat) :
    ∀ (fs : List Path) (st : RemoteState) (e : RemoteEntry),
      e ∈ (storeFold argData sel kindOf tOf st fs).entries →
      e ∈ st.entries ∨ ∃ f ∈ fs, sel f = true ∧ e = ⟨toRemoteT argData f, kindOf f, tOf f⟩
  | [], st, e, he => Or.inl he
  | f :: fs, st, e, he => by
    simp only [storeFold] at he
    rcases mem_storeFold argData sel kindOf tOf fs _ e he with h | ⟨g, hg, hsg, heg⟩
    · by_cases hs : sel f = true
      · rw [if_pos hs] at h
        rcases mem_storeNamed (toRemoteT argData f) (kindOf f) (tOf f) st.entries e h with
          h' | h'
        · exact Or.inl h'
        · exact Or.inr ⟨f, by simp, hs, h'⟩
      · rw [if_neg hs] at h
        exact Or.inl h
    · exact Or.inr ⟨g, by simp [hg], hsg, heg⟩

theorem nodup_names_storeFold (argData : ParamArgData) (sel : Path → Bool)
    (kindOf : Path → EntryKind) (tOf : Path → Nat) :
    ∀ (fs : List Path) (st : RemoteState),
      (st.entries.map RemoteEntry.name).Nodup →
      ((storeFold argData sel kindOf tOf st fs).entries.map RemoteEntry.name).Nodup
  | [], _, h => h
  | f :: fs, st, h => by
    simp only [storeFold]
    apply nodup_names_storeFold argData sel kindOf tOf fs
    by_cases hs : sel f = true
    · rw [if_pos hs]
      exact nodup_names_storeNamed (toRemoteT argData f) (kindOf f) (tOf f) st.entries h
    · rw [if_neg hs]
      exact h

theorem findEntry_filter_pass2 (argData : ParamArgData) (localFiles w : List Path) :
    ∀ (es : List RemoteEntry) (q : Path),
      findEntry (es.filter (fun e => decide (toLocalT argData e.name ∈ localFiles)
          || !(decide (e.name ∈ w)))) q
        = if (decide (toLocalT argData q ∈ localFiles) || !(decide (q ∈ w))) = true
          then findEntry es q else none
  | [], q => by
    by_cases hc : (decide (toLocalT argData q ∈ localFiles) || !(decide (q ∈ w))) = true <;>
      simp [findEntry, hc]
  | e :: es, q => by
    rw [List.filter_cons]
    by_cases hc : (decide (toLocalT argData e.name ∈ localFiles)
        || !(decide (e.name ∈ w))) = true
    · rw [if_pos hc]
      show (if e.name = q then some e
          else findEntry (es.filter (fun e => decide (toLocalT argData e.name ∈ localFiles)
            || !(decide (e.name ∈ w)))) q) = _
      by_cases heq : e.name = q
      · have hq : (decide (toLocalT argData q ∈ localFiles) || !(decide (q ∈ w))) = true := by
          rw [← heq]
          exact hc
        rw [if_pos heq, if_pos hq]
        show some e = if e.name = q then some e else findEntry es q
        rw [if_pos heq]
      · rw [if_neg heq, findEntry_filter_pass2 argData localFiles w es q]
        by_cases hq : (decide (toLocalT argData q ∈ localFiles) || !(decide (q ∈ w))) = true
        · rw [if_pos hq, if_pos hq]
          show findEntry es q = if e.name = q then some e else findEntry es q
          rw [if_neg heq]
        · rw [if_neg hq, if_neg hq]
    · rw [if_neg hc, findEntry_filter_pass2 argData localFiles w es q]
      by_cases heq : e.name = q
      · have hq : ¬ (decide (toLocalT argData q ∈ localFiles) || !(decide (q ∈ w))) = true := by
          rw [← heq]
          exact hc
        rw [if_neg hq, if_neg hq]
      · by_cases hq : (decide (toLocalT argData q ∈ localFiles) || !(decide (q ∈ w))) = true
        · rw [if_pos hq, if_pos hq]
          show findEntry es q = if e.name = q then some e else findEntry es q
          rw [if_neg heq]
        · rw [if_neg hq, if_neg hq]

end FTPSync

namespace FTPSync

theorem syncMain_ok_intro (argData₀ : ParamArgData) (localFiles : List Path) (env : SyncEnv)
    (st₀ : RemoteState) (setup : RemoteSetupResult) (st₁ st₂ st₃ : RemoteState)
    (nf tr del upd : List Path) (or₁ : List (Path × Nat))
    (hconn : env.connect230 = true)
    (hs : remoteDirectorySetup
        ⟨argData₀.remoteDirectory, procCmdLineNormalize argData₀.localDirectory⟩ env
      = Except.ok setup)
    (h1 : pass1Classify ⟨setup.finalRemoteDirectory, procCmdLineNormalize argData₀.localDirectory⟩
        st₀.listNames localFiles = Except.ok nf)
    (h2 : (if nf.isEmpty then Except.ok (st₀, ([] : List Path))
        else putFiles ⟨setup.finalRemoteDirectory, procCmdLineNormalize argData₀.localDirectory⟩
          env st₀ nf) = Except.ok (st₁, tr))
    (h3 : pass2 ⟨setup.finalRemoteDirectory, procCmdLineNormalize argData₀.localDirectory⟩
        localFiles st₁ (st₀.listNames ++ tr) = Except.ok (st₂, del))
    (h4 : pass3 ⟨setup.finalRemoteDirectory, procCmdLineNormalize argData₀.localDirectory⟩
        env st₂ (buildOracle st₂ (st₀.listNames ++ tr)) localFiles
      = Except.ok (st₃, or₁, upd)) :
    syncMain argData₀ localFiles env st₀ = Except.ok
      ⟨⟨setup.finalRemoteDirectory, procCmdLineNormalize argData₀.localDirectory⟩,
        setup.madeRemotePath, nf, tr, st₀.listNames ++ tr, del,
        buildOracle st₂ (st₀.listNames ++ tr), or₁, upd, st₃⟩ := by
  unfold syncMain
  rw [if_pos hconn, hs]
  dsimp only
  rw [h1]
  dsimp only
  rw [h2]
  dsimp only
  rw [h3]
  dsimp only
  rw [h4]

end FTPSync

namespace FTPSync

/-- C5: running the full three-pass Sync twice in succession — with no
external change to the local tree (same listing, kinds and modification
times) or to the remote tree between the runs, every first-run operation
succeeding (`transferOk`, `pushOk` all true, the server recording for a
stored file a timestamp no older than its local modification time), and
the snapshots well-formed (local paths under the local root, remote
entries under the server working directory, duplicate-free listings) —
produces an empty operation set on the second run: no Push, no Delete,
no Update. -/
theorem c5_sync_idempotent (argData₀ : ParamArgData) (localFiles : List Path)
    (env env' : SyncEnv) (st₀ : RemoteState)
    (hconn : env.connect230 = true)
    (hsetup : env.existsBefore = true ∨ env.existsAfterMake = true)
    (hstart : ∀ p ∈ localFiles,
      startsList (procCmdLineNormalize argData₀.localDirectory) p = true)
    (hremote : ∀ e ∈ st₀.entries, ∃ t, e.name = env.serverCwd ++ '/' :: t)
    (hnodL : localFiles.Nodup)
    (hnodR : (st₀.entries.map RemoteEntry.name).Nodup)
    (htr : ∀ p, env.transferOk p = true)
    (hpush : ∀ p, env.pushOk p = true)
    (hup : ∀ p, env.lastWriteTime p ≤ env.uploadTime p)
    (hconn' : env'.connect230 = true)
    (hE' : env'.existsBefore = true)
    (hcwd' : env'.serverCwd = env.serverCwd)
    (hisf' : env'.isFileEnv = env.isFileEnv)
    (hlwt' : env'.lastWriteTime = env.lastWriteTime) :
    ∃ out₁ out₂,
      syncMain argData₀ localFiles env st₀ = Except.ok out₁ ∧
      syncMain argData₀ localFiles env' out₁.finalState = Except.ok out₂ ∧
      out₂.newFiles = [] ∧ out₂.deleted = [] ∧ out₂.updated = [] := by
  obtain ⟨b, hb⟩ := procCmdLineNormalize_concat argData₀.localDirectory
  set L := procCmdLineNormalize argData₀.localDirectory with hL
  set rd := env.serverCwd with hrd
  set argD : ParamArgData := ⟨rd, L⟩ with hargD
  have hnormD : argD.localDirectory = b ++ ['/'] := hb
  have hrdproj : argD.remoteDirectory = rd := rfl
  have hshape : ∀ p ∈ localFiles, ∃ rest, p = L ++ rest :=
    fun p hp => (startsList_iff L p).1 (hstart p hp)
  have hlen : ∀ p ∈ localFiles, b.length ≤ p.length :=
    fun p hp => length_of_starts b L p hb (hstart p hp)
  have hroundtrip : ∀ p ∈ localFiles, toLocalT argD (toRemoteT argD p) = p := by
    intro p hp
    obtain ⟨rest, hrest⟩ := hshape p hp
    rw [hrest]
    exact toLocalT_toRemoteT argD b rest hnormD
  have hshapeR : ∀ p ∈ localFiles, ∃ t, toRemoteT argD p = rd ++ '/' :: t := by
    intro p hp
    obtain ⟨rest, hrest⟩ := hshape p hp
    refine ⟨rest, ?_⟩
    rw [hrest]
    exact toRemoteT_under argD b rest hnormD
  have hinj : ∀ p ∈ localFiles, ∀ q ∈ localFiles,
      toRemoteT argD q = toRemoteT argD p → q = p := by
    intro p hp q hq heq
    obtain ⟨rp, hrp⟩ := hshape p hp
    obtain ⟨rq, hrq⟩ := hshape q hq
    rw [hrp, hrq] at heq ⊢
    exact toRemoteT_inj argD b hnormD rq rp heq
  -- run 1, setup
  have hsetupOk := remoteDirectorySetup_ok ⟨argData₀.remoteDirectory, L⟩ env hsetup
  -- run 1, Pass 1
  set nf := localFiles.filter (fun p => decide (toRemoteT argD p ∉ st₀.listNames)) with hnf
  have h1 : pass1Classify argD st₀.listNames localFiles = Except.ok nf :=
    pass1Classify_eq argD b hnormD st₀.listNames localFiles hlen
  have hnf_sub : ∀ p ∈ nf, p ∈ localFiles := fun p hp => (List.mem_filter.1 (hnf ▸ hp)).1
  have hnf_not : ∀ p ∈ nf, toRemoteT argD p ∉ st₀.listNames := by
    intro p hp
    have h := (List.mem_filter.1 (hnf ▸ hp)).2
    simpa using h
  have hmemN : ∀ p ∈ localFiles, p ∉ nf → toRemoteT argD p ∈ st₀.listNames := by
    intro p hp hpn
    by_contra hnot
    exact hpn (by rw [hnf]; exact List.mem_filter.2 ⟨hp, by simpa using hnot⟩)
  set st₁ := storeFold argD env.transferOk (entryKindOf env) env.uploadTime st₀ nf with hst₁
  set tr := nf.map (toRemoteT argD) with htrdef
  have h2 : (if nf.isEmpty then Except.ok (st₀, ([] : List Path))
      else putFiles argD env st₀ nf) = Except.ok (st₁, tr) := by
    by_cases hni : nf.isEmpty
    · rw [if_pos hni]
      have hnil : nf = [] := List.isEmpty_iff.1 hni
      rw [hst₁, htrdef, hnil]
      rfl
    · rw [if_neg hni,
        putFiles_eq argD env b hnormD nf st₀ (fun f hf => hlen f (hnf_sub f hf)),
        filter_of_all_true env.transferOk htr nf, hst₁, htrdef]
  -- run 1, working list
  set w := st₀.listNames ++ tr with hw
  have hshapeW : ∀ r ∈ w, ∃ t, r = rd ++ '/' :: t := by
    intro r hr
    rw [hw] at hr
    rcases List.mem_append.1 hr with h | h
    · rcases List.mem_map.1 h with ⟨e, he, hename⟩
      obtain ⟨t, ht⟩ := hremote e he
      exact ⟨t, by rw [← hename]; exact ht⟩
    · rcases List.mem_map.1 (htrdef ▸ h) with ⟨p, hp, hpr⟩
      obtain ⟨t, ht⟩ := hshapeR p (hnf_sub p hp)
      exact ⟨t, by rw [← hpr]; exact ht⟩
  have hmapW : ∀ r ∈ w, argD.remoteDirectory.length + 1 ≤ r.length := by
    intro r hr
    obtain ⟨t, ht⟩ := hshapeW r hr
    rw [ht, hrdproj]
    simp only [List.length_append, List.length_cons]
    omega
  have hnodW : w.Nodup := by
    rw [hw]
    refine List.Nodup.append hnodR ?_ ?_
    · rw [htrdef]
      refine List.Nodup.map_on ?_ (by rw [hnf]; exact List.Nodup.filter _ hnodL)
      intro x hx y hy hxy
      exact hinj y (hnf_sub y hy) x (hnf_sub x hx) hxy
    · intro a ha hatr
      rcases List.mem_map.1 (htrdef ▸ hatr) with ⟨p, hpnf, hpa⟩
      exact hnf_not p hpnf (hpa.symm ▸ ha)
  -- run 1, Pass 2
  obtain ⟨del, h3⟩ := pass2_eq argD localFiles w st₁ hmapW
  set st₂ : RemoteState := ⟨st₁.entries.filter (fun e =>
      decide (toLocalT argD e.name ∈ localFiles) || !(decide (e.name ∈ w)))⟩ with hst₂
  -- lookups below Pass 2
  have hfindSt₁ : ∀ p ∈ localFiles,
      findEntry st₁.entries (toRemoteT argD p)
        = if p ∈ nf then some ⟨toRemoteT argD p, entryKindOf env p, env.uploadTime p⟩
          else findEntry st₀.entries (toRemoteT argD p) := by
    intro p hp
    by_cases hpn : p ∈ nf
    · rw [if_pos hpn, hst₁]
      exact findEntry_storeFold_mem argD env.transferOk (entryKindOf env) env.uploadTime
        nf st₀ p hpn (htr p) (fun g hg hsg hge => hinj p hp g (hnf_sub g hg) hge)
    · rw [if_neg hpn, hst₁]
      refine findEntry_storeFold_not argD env.transferOk (entryKindOf env) env.uploadTime
        nf st₀ (toRemoteT argD p) ?_
      intro g hg hsg hgeq
      exact hpn ((hinj p hp g (hnf_sub g hg) hgeq) ▸ hg)
  have hfindSt₁some : ∀ p ∈ localFiles, ∃ e,
      findEntry st₁.entries (toRemoteT argD p) = some e ∧ e.name = toRemoteT argD p := by
    intro p hp
    rw [hfindSt₁ p hp]
    by_cases hpn : p ∈ nf
    · rw [if_pos hpn]
      exact ⟨_, rfl, rfl⟩
    · rw [if_neg hpn]
      obtain ⟨e, he1, he2, he3⟩ :=
        exists_findEntry_of_mem_names st₀.entries _ (hmemN p hp hpn)
      exact ⟨e, he1, he3⟩
  have hnamesSt₁ : ∀ e ∈ st₁.entries, e.name ∈ w := by
    intro e he
    rw [hst₁] at he
    rcases mem_storeFold argD env.transferOk (entryKindOf env) env.uploadTime nf st₀ e he with
      h | ⟨f, hf, hsf, hef⟩
    · rw [hw]
      exact List.mem_append.2 (Or.inl (List.mem_map.2 ⟨e, h, rfl⟩))
    · rw [hw]
      refine List.mem_append.2 (Or.inr ?_)
      rw [htrdef, hef]
      exact List.mem_map.2 ⟨f, hf, rfl⟩
  have hst₂mem : ∀ e ∈ st₂.entries, e ∈ st₁.entries ∧ toLocalT argD e.name ∈ localFiles := by
    intro e he
    rw [hst₂] at he
    obtain ⟨h1', h2'⟩ := List.mem_filter.1 he
    refine ⟨h1', ?_⟩
    have h2'' : toLocalT argD e.name ∈ localFiles ∨ e.name ∉ w := by simpa using h2'
    rcases h2'' with hc | hc
    · exact hc
    · exact absurd (hnamesSt₁ e h1') hc
  have hfindSt₂ : ∀ p ∈ localFiles,
      findEntry st₂.entries (toRemoteT argD p)
        = findEntry st₁.entries (toRemoteT argD p) := by
    intro p hp
    show findEntry (st₁.entries.filter (fun e =>
        decide (toLocalT argD e.name ∈ localFiles) || !(decide (e.name ∈ w))))
      (toRemoteT argD p) = _
    rw [findEntry_filter_pass2 argD localFiles w st₁.entries (toRemoteT argD p)]
    rw [if_pos (by
      have h' : toLocalT argD (toRemoteT argD p) ∈ localFiles := by
        rw [hroundtrip p hp]
        exact hp
      simp [h'])]
  -- run 1, oracle
  set o₁ := buildOracle st₂ w with ho₁
  have hWmem : ∀ p ∈ localFiles, toRemoteT argD p ∈ w := by
    intro p hp
    by_cases hpn : p ∈ nf
    · rw [hw]
      exact List.mem_append.2 (Or.inr (by rw [htrdef]; exact List.mem_map.2 ⟨p, hpn, rfl⟩))
    · rw [hw]
      exact List.mem_append.2 (Or.inl (hmemN p hp hpn))
  have hOfind : ∀ p ∈ localFiles,
      oracleFind o₁ (toRemoteT argD p) = st₂.getModifiedDateTime (toRemoteT argD p) := by
    intro p hp
    rw [ho₁, oracleFind_buildOracle st₂ w hnodW (toRemoteT argD p),
      if_pos (hWmem p hp)]
  have hOsome : ∀ p ∈ localFiles, ∃ v, oracleFind o₁ (toRemoteT argD p) = some v := by
    intro p hp
    obtain ⟨e, he1, he2⟩ := hfindSt₁some p hp
    refine ⟨e.mtime, ?_⟩
    rw [hOfind p hp]
    show (findEntry st₂.entries (toRemoteT argD p)).map RemoteEntry.mtime = some e.mtime
    rw [hfindSt₂ p hp, he1]
    rfl
  -- run 1, Pass 3
  obtain ⟨m₁, h4⟩ := pass3_eq argD env b hnormD localFiles st₂ o₁ (fun p hp _ => hlen p hp)
  set cond3 := fun p => env.isFileEnv p &&
      decide (oracleFindD o₁ (toRemoteT argD p) < env.lastWriteTime p) with hcond3
  set upd := localFiles.filter cond3 with hupd
  set st₃ := storeFold argD env.pushOk (fun _ => EntryKind.file) env.uploadTime st₂ upd
    with hst₃
  have hrun1 := syncMain_ok_intro argData₀ localFiles env st₀ ⟨!env.existsBefore, rd⟩
    st₁ st₂ st₃ nf tr del upd m₁ hconn hsetupOk h1 h2 h3 h4
  -- facts about the state after run 1
  have hinjUpd : ∀ g ∈ upd, g ∈ localFiles := fun g hg => (List.mem_filter.1 (hupd ▸ hg)).1
  have hfindSt₃At : ∀ p ∈ localFiles,
      findEntry st₃.entries (toRemoteT argD p)
        = if p ∈ upd then some ⟨toRemoteT argD p, EntryKind.file, env.uploadTime p⟩
          else findEntry st₂.entries (toRemoteT argD p) := by
    intro p hp
    by_cases hpu : p ∈ upd
    · rw [if_pos hpu, hst₃]
      exact findEntry_storeFold_mem argD env.pushOk (fun _ => EntryKind.file) env.uploadTime
        upd st₂ p hpu (hpush p) (fun g hg hsg hge => hinj p hp g (hinjUpd g hg) hge)
    · rw [if_neg hpu, hst₃]
      refine findEntry_storeFold_not argD env.pushOk (fun _ => EntryKind.file) env.uploadTime
        upd st₂ (toRemoteT argD p) ?_
      intro g hg hsg hge
      exact hpu ((hinj p hp g (hinjUpd g hg) hge) ▸ hg)
  have hpresSt₃ : ∀ p ∈ localFiles, ∃ e,
      findEntry st₃.entries (toRemoteT argD p) = some e ∧ e.name = toRemoteT argD p := by
    intro p hp
    rw [hfindSt₃At p hp]
    by_cases hpu : p ∈ upd
    · rw [if_pos hpu]
      exact ⟨_, rfl, rfl⟩
    · rw [if_neg hpu, hfindSt₂ p hp]
      exact hfindSt₁some p hp
  have hvalSt₃ : ∀ p ∈ localFiles, env.isFileEnv p = true →
      ∀ e, findEntry st₃.entries (toRemoteT argD p) = some e →
        env.lastWriteTime p ≤ e.mtime := by
    intro p hp hf e he
    rw [hfindSt₃At p hp] at he
    by_cases hpu : p ∈ upd
    · rw [if_pos hpu] at he
      injection he with he
      rw [← he]
      exact hup p
    · rw [if_neg hpu] at he
      have hcondF : cond3 p = false := by
        by_contra hcf
        have hct : cond3 p = true := by
          revert hcf
          cases cond3 p <;> simp
        exact hpu (by rw [hupd]; exact List.mem_filter.2 ⟨hp, hct⟩)
      have hcF : ¬ (oracleFindD o₁ (toRemoteT argD p) < env.lastWriteTime p) := by
        rw [hcond3] at hcondF
        simp only [hf, Bool.true_and] at hcondF
        exact of_decide_eq_false hcondF
      obtain ⟨v, hv⟩ := hOsome p hp
      have hev : v = e.mtime := by
        have hv' : (findEntry st₂.entries (toRemoteT argD p)).map RemoteEntry.mtime
            = some v := by
          rw [hOfind p hp] at hv
          exact hv
        rw [he] at hv'
        injection hv' with hv'
        exact hv'.symm
      have hvd : oracleFindD o₁ (toRemoteT argD p) = v := by
        rw [oracleFindD, hv]
        rfl
      rw [hvd] at hcF
      omega
  have hst₃struct : ∀ e ∈ st₃.entries,
      toLocalT argD e.name ∈ localFiles ∧ ∃ t, e.name = rd ++ '/' :: t := by
    intro e he
    rw [hst₃] at he
    rcases mem_storeFold argD env.pushOk (fun _ => EntryKind.file) env.uploadTime
      upd st₂ e he with h | ⟨f, hf, hsf, hef⟩
    · obtain ⟨h1', h2'⟩ := hst₂mem e h
      refine ⟨h2', ?_⟩
      rw [hst₁] at h1'
      rcases mem_storeFold argD env.transferOk (entryKindOf env) env.uploadTime
        nf st₀ e h1' with h' | ⟨g, hg, hsg, heg⟩
      · exact hremote e h'
      · rw [heg]
        exact hshapeR g (hnf_sub g hg)
    · rw [hef]
      constructor
      · show toLocalT argD (toRemoteT argD f) ∈ localFiles
        rw [hroundtrip f (hinjUpd f hf)]
        exact hinjUpd f hf
      · exact hshapeR f (hinjUpd f hf)
  have hnodSt₃ : (st₃.entries.map RemoteEntry.name).Nodup := by
    rw [hst₃]
    apply nodup_names_storeFold
    rw [hst₂]
    refine List.Nodup.sublist (List.Sublist.map _ (List.filter_sublist _)) ?_
    rw [hst₁]
    exact nodup_names_storeFold argD env.transferOk (entryKindOf env) env.uploadTime
      nf st₀ hnodR
  -- run 2
  have hsetup2 := remoteDirectorySetup_ok ⟨argData₀.remoteDirectory, L⟩ env' (Or.inl hE')
  rw [hcwd'] at hsetup2
  have hG : ∀ p ∈ localFiles, toRemoteT argD p ∈ st₃.listNames := by
    intro p hp
    obtain ⟨e, he1, he2⟩ := hpresSt₃ p hp
    obtain ⟨hmem, -⟩ := findEntry_mem_names st₃.entries _ e he1
    exact List.mem_map.2 ⟨e, hmem, he2⟩
  have h1₂ : pass1Classify argD st₃.listNames localFiles = Except.ok [] := by
    rw [pass1Classify_eq argD b hnormD st₃.listNames localFiles hlen]
    have hnil : localFiles.filter (fun p => decide (toRemoteT argD p ∉ st₃.listNames))
        = [] := by
      rw [List.filter_eq_nil_iff]
      intro p hp
      simp [hG p hp]
    rw [hnil]
  have h3₂ : pass2 argD localFiles st₃ (st₃.listNames ++ []) = Except.ok (st₃, []) := by
    refine pass2_noop argD localFiles (st₃.listNames ++ []) st₃ ?_
    intro r hr
    rw [List.append_nil] at hr
    rcases List.mem_map.1 hr with ⟨e, he, hename⟩
    obtain ⟨hloc, t, ht⟩ := hst₃struct e he
    refine ⟨toLocalT argD r, ?_, ?_⟩
    · apply remoteFileToLocal_ok
      rw [← hename, ht, hrdproj]
      simp only [List.length_append, List.length_cons]
      omega
    · rw [← hename]
      exact hloc
  set o₂ := buildOracle st₃ (st₃.listNames ++ []) with ho₂
  have hnodW2 : (st₃.listNames ++ ([] : List Path)).Nodup := by
    rw [List.append_nil]
    exact hnodSt₃
  obtain ⟨m₂, h4₂⟩ := pass3_eq argD env' b hnormD localFiles st₃ o₂ (fun p hp _ => hlen p hp)
  have hupd2 : localFiles.filter (fun p => env'.isFileEnv p &&
      decide (oracleFindD o₂ (toRemoteT argD p) < env'.lastWriteTime p)) = [] := by
    rw [List.filter_eq_nil_iff]
    intro p hp
    rw [hisf', hlwt']
    by_cases hf : env.isFileEnv p = true
    · obtain ⟨e, he1, he2⟩ := hpresSt₃ p hp
      have hfind2 : oracleFind o₂ (toRemoteT argD p) = some e.mtime := by
        rw [ho₂, oracleFind_buildOracle st₃ (st₃.listNames ++ []) hnodW2 (toRemoteT argD p),
          if_pos (by rw [List.append_nil]; exact hG p hp)]
        show (findEntry st₃.entries (toRemoteT argD p)).map RemoteEntry.mtime = some e.mtime
        rw [he1]
        rfl
      have hle := hvalSt₃ p hp hf e he1
      have hvd : oracleFindD o₂ (toRemoteT argD p) = e.mtime := by
        rw [oracleFindD, hfind2]
        rfl
      simp only [hf, Bool.true_and, hvd]
      simp only [decide_eq_true_eq]
      omega
    · simp [hf]
  have h4₂' : pass3 argD env' st₃ o₂ localFiles = Except.ok (st₃, m₂, []) := by
    rw [hupd2] at h4₂
    exact h4₂
  have h2₂ : (if ([] : List Path).isEmpty then Except.ok (st₃, ([] : List Path))
      else putFiles argD env' st₃ []) = Except.ok (st₃, ([] : List Path)) := rfl
  have hrun2 := syncMain_ok_intro argData₀ localFiles env' st₃ ⟨!env'.existsBefore, rd⟩
    st₃ st₃ st₃ [] [] [] [] m₂ hconn' hsetup2 h1₂ h2₂ h3₂ h4₂'
  exact ⟨_, _, hrun1, hrun2, rfl, rfl, rfl⟩

end FTPSync

namespace FTPSync

theorem c5_sync_idempotent_witness :
    ∃ out₁ out₂,
      syncMain ⟨"/x".data, "/a".data⟩ ["/a/f.txt".data]
          ⟨true, true, true, "/r".data, fun _ => true, fun _ => true, fun _ => true,
            fun _ => 5, fun _ => 7⟩ ⟨[]⟩ = Except.ok out₁ ∧
      syncMain ⟨"/x".data, "/a".data⟩ ["/a/f.txt".data]
          ⟨true, true, true, "/r".data, fun _ => true, fun _ => true, fun _ => true,
            fun _ => 5, fun _ => 7⟩ out₁.finalState = Except.ok out₂ ∧
      out₂.newFiles = [] ∧ out₂.deleted = [] ∧ out₂.updated = [] :=
  c5_sync_idempotent ⟨"/x".data, "/a".data⟩ ["/a/f.txt".data]
    ⟨true, true, true, "/r".data, fun _ => true, fun _ => true, fun _ => true,
      fun _ => 5, fun _ => 7⟩
    ⟨true, true, true, "/r".data, fun _ => true, fun _ => true, fun _ => true,
      fun _ => 5, fun _ => 7⟩ ⟨[]⟩
    rfl (Or.inl rfl) (by decide) (fun e he => absurd he (List.not_mem_nil e))
    (by decide) List.nodup_nil (fun _ => rfl) (fun _ => rfl)
    (fun _ => by show (5 : Nat) ≤ 7; decide)
    rfl rfl rfl rfl rfl

end FTPSync
